import Mathlib

/-!
# MagMap: connection index, visibility controller, selection state and search

A shallow embedding of `src/js/map.js` and `src/js/search.js`.

Modelling conventions.

* A JavaScript string is a `List Char` (`Str`).  Optional string properties that the
  source only ever reads through `x || fallback` or a truthiness test are modelled by
  a `Str` whose empty value stands for "missing": `undefined`, `null` and `""` are all
  falsy, so the source cannot tell them apart.
* `allLocations` comes out of `JSON.parse`, so its elements are pairwise distinct
  objects.  The identity of a location record is its position in `allLocations`;
  `fromLoc === toLoc` is equality of positions.
* `allConnectionLayers` is a JavaScript object used as a dictionary.  It is modelled
  by an association list read with first-match lookup and written with
  replace-or-append.  `Object.values(...).forEach` visits every entry once and each
  visit only touches the visited layer, so the visiting order is immaterial.
  Keys are assumed not to collide with members of `Object.prototype`.  The constant
  `connectionColors` is read with keys taken from the data, and there the members
  inherited from `Object.prototype` are part of the model (`colorOfType`).
* Leaflet is outside the repository.  A layer group is modelled by the list of the
  layers added to it plus one flag telling whether `map.hasLayer` holds; a marker has
  an `_icon` exactly while it is on the map.
* Opacities are kept in tenths: `0`, `7` (for `0.7`) and `10` (for `1`).
* `groupedLocations` is a dictionary too; `Object.entries` lists its array-index keys
  first, in ascending order, then the other keys in insertion order, and the model
  does the same.  `Array.prototype.sort` is stable, and its comparator here is the
  difference of two keys, so the result is the stable sort by that key.
* A Number that is an integer or infinite is kept as an `Int`, `Infinity` being 2^1024;
  `parseInt` rounds the integer it reads to the nearest double.
* The markup written into the side panel and the results area is modelled by what it
  is made of: one block for each template the code appends, with the interpolated texts
  as data.  `searchCalls` is a record of the calls of `searchLocations`, kept to state
  that a call did or did not happen.
-/

namespace MagMap

abbrev Str := List Char

/-! ## Data model (map.js) -/

/-- A GeoJSON feature of `locations.geojson`: the properties the code reads. -/
structure Location where
  statement : Str
  place : Str
  entity : Str
  summary : Str
  deriving DecidableEq, Repr

/-- A record of `connections.json`; `from_` and `to_` are its `from` and `to`. -/
structure Connection where
  id : Str
  from_ : Str
  to_ : Str
  type : Str
  strength : Str
  label : Str
  color : Str
  deriving DecidableEq, Repr

/-- A value of the colour expression of `createConnectionLayer`: a string, or a member
that `connectionColors` inherits from `Object.prototype` (a function or an object, which
is no colour). -/
inductive ColorValue where
  | text (s : Str)
  | inherited (name : Str)
  deriving DecidableEq, Repr

/-- An `L.polyline` built by `createConnectionLayer`, with the fields stored on it. -/
structure Polyline where
  color : ColorValue
  weight : Nat
  opacity : Nat
  dashed : Bool
  connectionData : Connection
  fromLocation : Nat
  toLocation : Nat
  deriving DecidableEq, Repr

/-- The label `L.marker` of a line.  `icon` is the style opacity of `_icon`, and is
`none` while the marker has no `_icon` (it is not on the map). -/
structure LabelMarker where
  connectionData : Connection
  icon : Option Nat
  deriving DecidableEq, Repr

/-- A member of a connection's layer group. -/
inductive Layer where
  | polyline (l : Polyline)
  | marker (m : LabelMarker)
  deriving DecidableEq, Repr

/-- An `L.layerGroup`: its members and whether the map currently has it. -/
structure LayerGroup where
  layers : List Layer
  onMap : Bool
  deriving DecidableEq, Repr

/-- The global variables of map.js. -/
structure State where
  allLocations : List Location
  allConnections : List Connection
  allConnectionLayers : List (Str × LayerGroup)
  currentlyHighlightedConnections : List Str
  currentlySelectedStatement : Option Str
  deriving DecidableEq, Repr

/-! ## The layer dictionary -/

/-- Property read `allConnectionLayers[k]`. -/
def getLayer : List (Str × LayerGroup) → Str → Option LayerGroup
  | [], _ => none
  | (k', g) :: rest, k => if k' = k then some g else getLayer rest k

/-- Property write `allConnectionLayers[k] = g`. -/
def setLayer : List (Str × LayerGroup) → Str → LayerGroup → List (Str × LayerGroup)
  | [], k, g => [(k, g)]
  | (k', g') :: rest, k, g =>
    if k' = k then (k, g) :: rest else (k', g') :: setLayer rest k g

/-! ## Connection index (map.js, `createConnectionLayer`) -/

/-- The constant `connectionColors`. -/
def connectionColors : List (Str × Str) :=
  [ ("same_statement".toList, "#FF6B6B".toList),
    ("entity".toList, "#8B0000".toList),
    ("artifact".toList, "#8B4513".toList),
    ("character".toList, "#4682B4".toList),
    ("organization".toList, "#32CD32".toList),
    ("location".toList, "#9932CC".toList),
    ("timeline".toList, "#FFD700".toList),
    ("default".toList, "#666666".toList) ]

/-- The names of the members an object literal inherits from `Object.prototype`. -/
def objectPrototypeNames : List Str :=
  [ "constructor".toList, "hasOwnProperty".toList, "isPrototypeOf".toList,
    "propertyIsEnumerable".toList, "toLocaleString".toList, "toString".toList,
    "valueOf".toList, "__proto__".toList, "__defineGetter__".toList,
    "__defineSetter__".toList, "__lookupGetter__".toList, "__lookupSetter__".toList ]

/-- The own property `t` of the colour table, if the table has one. -/
def ownColor : List (Str × Str) → Str → Option Str
  | [], _ => none
  | (k, v) :: rest, t => if k = t then some v else ownColor rest t

/-- A lookup `connectionColors[t]`: the own property if there is one, otherwise the
member inherited from `Object.prototype` if `t` names one, otherwise `undefined`
(`none`). -/
def colorOfType (tbl : List (Str × Str)) (t : Str) : Option ColorValue :=
  match ownColor tbl t with
  | some v => some (ColorValue.text v)
  | none => if t ∈ objectPrototypeNames then some (ColorValue.inherited t) else none

/-- Whether a looked-up value is truthy: a non-empty string, or any function or object. -/
def ColorValue.truthy : ColorValue → Bool
  | ColorValue.text s => decide (s ≠ [])
  | ColorValue.inherited _ => true

/-- The expression `a || b` on strings. -/
def orElse (a b : Str) : Str := if a = [] then b else a

/-- The tail `connection.color || connectionColors.default` of the colour expression;
an empty text stands for `undefined`. -/
def ownOrDefaultColor (c : Connection) : ColorValue :=
  if c.color = [] then
    (colorOfType connectionColors "default".toList).getD (ColorValue.text [])
  else ColorValue.text c.color

/-- The expression
`connectionColors[connection.type] || connection.color || connectionColors.default`. -/
def lineColor (c : Connection) : ColorValue :=
  match colorOfType connectionColors c.type with
  | some v => if v.truthy then v else ownOrDefaultColor c
  | none => ownOrDefaultColor c

/-- The `weight` option of the polyline. -/
def lineWeight (c : Connection) : Nat :=
  if c.strength = "high".toList then 4
  else if c.strength = "medium".toList then 3 else 2

/-- The locations paired with their positions in `allLocations`. -/
def indexed (locs : List Location) : List (Nat × Location) := locs.enum

/-- The call `allLocations.filter(loc => loc.properties.statement === s)`. -/
def locationsOf (locs : List Location) (s : Str) : List (Nat × Location) :=
  (indexed locs).filter (fun p => decide (p.2.statement = s))

/-- The call `allLocations.find(loc => loc.properties.statement === s)`. -/
def findLocation (locs : List Location) (s : Str) : Option (Nat × Location) :=
  (indexed locs).find? (fun p => decide (p.2.statement = s))

/-- The body of the inner `forEach`: nothing for a location paired with itself,
otherwise a line (opacity 0) and, when the connection has a label, a label marker. -/
def pairLayers (c : Connection) (fromLoc toLoc : Nat × Location) : List Layer :=
  if fromLoc.1 = toLoc.1 then []
  else
    Layer.polyline
      { color := lineColor c
        weight := lineWeight c
        opacity := 0
        dashed := decide (c.type ≠ "same_statement".toList)
        connectionData := c
        fromLocation := fromLoc.1
        toLocation := toLoc.1 } ::
    (if c.label = [] then [] else [Layer.marker { connectionData := c, icon := none }])

/-- The nested `forEach` over `fromLocations` and `toLocations`. -/
def buildLayers (c : Connection) (fromLocations toLocations : List (Nat × Location)) :
    List Layer :=
  fromLocations.flatMap (fun f => toLocations.flatMap (fun t => pairLayers c f t))

/-- The function `createConnectionLayer(connection)`. -/
def createConnectionLayer (st : State) (c : Connection) : State :=
  match findLocation st.allLocations c.from_, findLocation st.allLocations c.to_ with
  | some _, some _ =>
    { st with
      allConnectionLayers :=
        setLayer st.allConnectionLayers c.id
          { layers := buildLayers c (locationsOf st.allLocations c.from_)
                        (locationsOf st.allLocations c.to_)
            onMap := false } }
  | _, _ => st

/-- The state after the data files are loaded: the globals set by the `then`
callback and `allConnections.forEach(conn => createConnectionLayer(conn))`. -/
def loadData (locs : List Location) (conns : List Connection) : State :=
  conns.foldl createConnectionLayer
    { allLocations := locs
      allConnections := conns
      allConnectionLayers := []
      currentlyHighlightedConnections := []
      currentlySelectedStatement := none }

/-! ## Visibility controller (map.js) -/

/-- The calls `map.removeLayer(layer)` on a group: its markers lose their `_icon`. -/
def removeFromMap (g : LayerGroup) : LayerGroup :=
  { layers := g.layers.map (fun l =>
      match l with
      | Layer.polyline p => Layer.polyline p
      | Layer.marker m => Layer.marker { m with icon := none })
    onMap := false }

/-- The calls `map.addLayer(layer)` on a group: its markers get an `_icon`, whose
opacity is the default 1 until a style is written. -/
def addToMap (g : LayerGroup) : LayerGroup :=
  { layers := g.layers.map (fun l =>
      match l with
      | Layer.polyline p => Layer.polyline p
      | Layer.marker m => Layer.marker { m with icon := some 10 })
    onMap := true }

/-- The callback of `layer.eachLayer`: `setStyle({ opacity })` on what has `setStyle`
(the lines), `_icon.style.opacity` on what has an `_icon`. -/
def setOpacity (lineOpacity iconOpacity : Nat) : Layer → Layer
  | Layer.polyline p => Layer.polyline { p with opacity := lineOpacity }
  | Layer.marker m => Layer.marker { m with icon := m.icon.map (fun _ => iconOpacity) }

/-- The function `clearAllConnections()`. -/
def clearAllConnections (st : State) : State :=
  let detached := st.allConnectionLayers.map
    (fun e => (e.1, if e.2.onMap then removeFromMap e.2 else e.2))
  { st with
    allConnectionLayers := detached.map
      (fun e => (e.1, { e.2 with layers := e.2.layers.map (setOpacity 0 0) }))
    currentlyHighlightedConnections := [] }

/-- The function `highlightSingleConnection(connectionId)`. -/
def highlightSingleConnection (st : State) (connectionId : Str) : State :=
  match getLayer st.allConnectionLayers connectionId with
  | none => st
  | some connectionLayer =>
    let attached := if connectionLayer.onMap then connectionLayer else addToMap connectionLayer
    let shown := { attached with layers := attached.layers.map (setOpacity 7 10) }
    { st with
      allConnectionLayers := setLayer st.allConnectionLayers connectionId shown
      currentlyHighlightedConnections :=
        if connectionId ∈ st.currentlyHighlightedConnections
        then st.currentlyHighlightedConnections
        else st.currentlyHighlightedConnections ++ [connectionId] }

/-- The connections `allConnections.filter(conn => conn.from === s || conn.to === s)`. -/
def relevantConnections (conns : List Connection) (s : Str) : List Connection :=
  conns.filter (fun c => decide (c.from_ = s ∨ c.to_ = s))

/-- The function `highlightAllConnectionsForStatement(statementNumber)`. -/
def highlightAllConnectionsForStatement (st : State) (statementNumber : Str) : State :=
  let cleared := clearAllConnections st
  if statementNumber = [] then cleared
  else
    let relevant := relevantConnections cleared.allConnections statementNumber
    if relevant.length = 0 then cleared
    else relevant.foldl (fun s conn => highlightSingleConnection s conn.id) cleared

/-! ## Selection state (map.js) -/

/-- The `click` handler of a statement marker, `onEachFeature`. -/
def markerClick (st : State) (statementNumber : Str) : State :=
  if st.currentlySelectedStatement = some statementNumber then
    if st.currentlyHighlightedConnections.length > 0 then
      { clearAllConnections st with currentlySelectedStatement := none }
    else highlightAllConnectionsForStatement st statementNumber
  else
    highlightAllConnectionsForStatement
      { clearAllConnections st with currentlySelectedStatement := some statementNumber }
      statementNumber

/-- The `click` handler of the map for a click on empty space:
`clearAllConnections(); resetPanelToDefault()`. -/
def mapClick (st : State) : State :=
  { clearAllConnections st with currentlySelectedStatement := none }

/-- The function `toggleConnectionsForStatement(statementNumber)`. -/
def toggleConnectionsForStatement (st : State) (statementNumber : Str) : State :=
  if st.currentlySelectedStatement = some statementNumber ∧
      st.currentlyHighlightedConnections.length > 0 then
    { clearAllConnections st with currentlySelectedStatement := none }
  else
    highlightAllConnectionsForStatement
      { clearAllConnections st with currentlySelectedStatement := some statementNumber }
      statementNumber

/-- The `click` handler of a line or label of connection `c`, taken alone:
`showConnectionDetails` only renders, then `highlightSingleConnection(c.id)`. -/
def connectionClick (st : State) (c : Connection) : State :=
  highlightSingleConnection st c.id

/-- Whether the map has the layer of connection `id`. -/
def isAttached (st : State) (id : Str) : Bool :=
  match getLayer st.allConnectionLayers id with
  | some g => g.onMap
  | none => false

/-- What `clearAllConnections` does to one layer group over its two passes. -/
def clearGroup (g : LayerGroup) : LayerGroup :=
  { layers := (if g.onMap then removeFromMap g else g).layers.map (setOpacity 0 0)
    onMap := false }

/-- What `highlightSingleConnection` does to the layer group it finds. -/
def showGroup (g : LayerGroup) : LayerGroup :=
  { layers := (if g.onMap then g else addToMap g).layers.map (setOpacity 7 10)
    onMap := true }

/-- The states the page can be in after the data are loaded. -/
inductive Reachable (locs : List Location) (conns : List Connection) : State → Prop
  | init : Reachable locs conns (loadData locs conns)
  | clear {st : State} :
      Reachable locs conns st → Reachable locs conns (clearAllConnections st)
  | single {st : State} (id : Str) :
      Reachable locs conns st → Reachable locs conns (highlightSingleConnection st id)
  | all {st : State} (s : Str) :
      Reachable locs conns st →
        Reachable locs conns (highlightAllConnectionsForStatement st s)
  | marker {st : State} (s : Str) :
      Reachable locs conns st → Reachable locs conns (markerClick st s)
  | emptyMap {st : State} :
      Reachable locs conns st → Reachable locs conns (mapClick st)
  | toggle {st : State} (s : Str) :
      Reachable locs conns st → Reachable locs conns (toggleConnectionsForStatement st s)

/-! ## Sample data -/

def stA : Str := "MAG-001".toList
def stB : Str := "MAG-002".toList
def stC : Str := "MAG-003".toList

def locA : Location := { statement := stA, place := "London".toList, entity := [], summary := [] }
def locA2 : Location := { statement := stA, place := "Leeds".toList, entity := [], summary := [] }
def locB : Location := { statement := stB, place := "Oxford".toList, entity := [], summary := [] }
def locC : Location := { statement := stC, place := "Dover".toList, entity := [], summary := [] }

/-- A connection between two statements that both have a location in `[locA, locB]`. -/
def connAB : Connection :=
  { id := "c1".toList, from_ := stA, to_ := stB, type := "entity".toList,
    strength := "high".toList, label := "same book".toList, color := [] }

/-- A second connection of statement `stA`. -/
def connBA : Connection :=
  { id := "c2".toList, from_ := stB, to_ := stA, type := "artifact".toList,
    strength := "low".toList, label := [], color := [] }

/-- A connection whose `to` statement has no location in `[locA, locB]`. -/
def connAC : Connection :=
  { id := "c3".toList, from_ := stA, to_ := stC, type := "entity".toList,
    strength := "medium".toList, label := [], color := [] }

/-- A connection of a statement with itself. -/
def connAA : Connection :=
  { id := "c4".toList, from_ := stA, to_ := stA, type := "same_statement".toList,
    strength := "high".toList, label := [], color := [] }

/-- Whether a member of a layer group is a line. -/
def isLine : Layer → Bool
  | Layer.polyline _ => true
  | Layer.marker _ => false

/-- The number of lines in a list of layers. -/
def countLines (ls : List Layer) : Nat := (ls.filter isLine).length

/-- The number of lines in a layer group. -/
def lineCount (g : LayerGroup) : Nat := countLines g.layers

/-- All (from, to) pairs of two lists of location records. -/
def pairsOf (fromLocations toLocations : List (Nat × Location)) :
    List ((Nat × Location) × (Nat × Location)) :=
  fromLocations.flatMap (fun f => toLocations.map (fun t => (f, t)))

/-- The number of self-pairs: (from, to) pairs made of the same location record. -/
def selfPairs (fromLocations toLocations : List (Nat × Location)) : Nat :=
  ((pairsOf fromLocations toLocations).filter (fun p => decide (p.1.1 = p.2.1))).length

/-- The consistency of the map with the highlighted list. -/
def Consistent (st : State) : Prop :=
  ∀ id, isAttached st id = true ↔ id ∈ st.currentlyHighlightedConnections

/-- Whether statement `s` is non-empty and has a connection whose layer was built. -/
def HasShownConnection (st : State) (s : Str) : Prop :=
  s ≠ [] ∧ ∃ c ∈ st.allConnections, (c.from_ = s ∨ c.to_ = s) ∧
    (getLayer st.allConnectionLayers c.id).isSome = true

/-! ## JavaScript string built-ins used by search.js

`String.prototype.toUpperCase` follows the Unicode case tables, which are not part of
the repository: the search functions take it as the parameter `toUpperCase`.
`asciiUpper` is its restriction to ASCII input, used to run the functions. -/

/-- The class `\d` of a regular expression. -/
def isDigit (c : Char) : Bool := decide (48 ≤ c.toNat ∧ c.toNat ≤ 57)

/-- The class `\s` of a regular expression, which is also what `trim` and `parseInt`
skip: the white space and line terminator code points. -/
def isWhiteSpace (c : Char) : Bool :=
  decide (c.toNat ∈ [9, 10, 11, 12, 13, 32, 160, 5760, 8232, 8233, 8239, 8287, 12288, 65279]
    ∨ (8192 ≤ c.toNat ∧ c.toNat ≤ 8202))

/-- The method `trim()`. -/
def trim (s : Str) : Str :=
  ((s.dropWhile isWhiteSpace).reverse.dropWhile isWhiteSpace).reverse

/-- The method `toUpperCase()` on ASCII strings. -/
def asciiUpper (s : Str) : Str :=
  s.map (fun c => if 97 ≤ c.toNat ∧ c.toNat ≤ 122 then Char.ofNat (c.toNat - 32) else c)

/-- The call `s.padStart(3, '0')`. -/
def padStart3 (s : Str) : Str := List.replicate (3 - s.length) '0' ++ s

/-- Whether `needle` starts `hay`. -/
def startsWith : Str → Str → Bool
  | _, [] => true
  | [], _ :: _ => false
  | h :: hay, n :: needle => decide (h = n) && startsWith hay needle

/-- The method `hay.includes(needle)`. -/
def includes : Str → Str → Bool
  | [], needle => startsWith [] needle
  | h :: hay, needle => startsWith (h :: hay) needle || includes hay needle

/-- The call `s.replace(pat, '')` with a string pattern: the first occurrence of `pat`
is removed. -/
def removeFirst (pat : Str) : Str → Str
  | [] => []
  | c :: rest =>
    if startsWith (c :: rest) pat then (c :: rest).drop pat.length
    else c :: removeFirst pat rest

/-- The value of a digit in a radix up to 16, if the character is one. -/
def digitValue (c : Char) : Option Nat :=
  if 48 ≤ c.toNat ∧ c.toNat ≤ 57 then some (c.toNat - 48)
  else if 97 ≤ c.toNat ∧ c.toNat ≤ 102 then some (c.toNat - 87)
  else if 65 ≤ c.toNat ∧ c.toNat ≤ 70 then some (c.toNat - 55)
  else none

/-- Whether a character is a digit of the given radix. -/
def isRadixDigit (radix : Nat) (c : Char) : Bool :=
  match digitValue c with
  | some v => decide (v < radix)
  | none => false

/-- The number written by a list of digits of the given radix. -/
def digitsValue (radix : Nat) (ds : Str) : Nat :=
  ds.foldl (fun n c => radix * n + (digitValue c).getD 0) 0

/-- The number of binary digits of a natural number; the first argument bounds the
recursion and is given the number itself. -/
def bitLength : Nat → Nat → Nat
  | 0, _ => 0
  | fuel + 1, m => if m = 0 then 0 else bitLength fuel (m / 2) + 1

/-- The double nearest to a natural number, ties going to the even significand.  A
natural number below 2^53 is a double; a larger one keeps its 53 leading binary digits,
`e` being the number of digits dropped.  The rounded value overflows when it reaches
2^1024, and 2^1024 stands for `Infinity`. -/
def roundToDouble (m : Nat) : Nat :=
  if m < 9007199254740992 then m
  else
    let e := bitLength m m - 53
    let q := m / 2 ^ e
    let r := m % 2 ^ e
    let rounded := if 2 * r > 2 ^ e ∨ (2 * r = 2 ^ e ∧ q % 2 = 1) then q + 1 else q
    if e > 971 ∨ (e = 971 ∧ rounded = 9007199254740992) then 2 ^ 1024 else rounded * 2 ^ e

/-- The Number value of an integer: its sign and the double nearest to its magnitude
(`Infinity` and `-Infinity` being 2^1024 and its opposite). -/
def toNumber (n : Int) : Int :=
  if n < 0 then -(roundToDouble n.natAbs : Int) else (roundToDouble n.natAbs : Int)

/-- The integer read by `parseInt(s)` before it is made a Number; `none` stands for
`NaN`.  Leading white space is skipped, a sign is read, a `0x` or `0X` prefix selects
radix 16, and the longest run of digits is read. -/
def parseInteger (s : Str) : Option Int :=
  let s1 := s.dropWhile isWhiteSpace
  let signed : Int × Str :=
    match s1 with
    | '-' :: r => (-1, r)
    | '+' :: r => (1, r)
    | _ => (1, s1)
  let based : Nat × Str :=
    match signed.2 with
    | '0' :: 'x' :: r => (16, r)
    | '0' :: 'X' :: r => (16, r)
    | _ => (10, signed.2)
  let ds := based.2.takeWhile (isRadixDigit based.1)
  if ds = [] then none else some (signed.1 * (digitsValue based.1 ds : Int))

/-- The function `parseInt(s)` with one argument: the Number value of the integer read,
that is the double nearest to it, as the engines compute it; `none` stands for `NaN`.
Doubles that are integers are kept as integers, so that the sign of `a - b` computed on
doubles is the sign of the difference here, and `Infinity - Infinity`, which is `NaN`
and counts as 0 for `sort`, is a difference of 0 here. -/
def parseInt (s : Str) : Option Int := (parseInteger s).map toNumber

/-! ## Search (search.js) -/

/-- The regular expression `/^\d+$/`. -/
def matchDigits (s : Str) : Bool := decide (s ≠ []) && s.all isDigit

/-- A letter of a pattern under the flag `i`: the character itself or its other case. -/
def matchLetter (upper lower c : Char) : Bool := decide (c = upper) || decide (c = lower)

/-- The regular expression `/^MAG\s*(\d+)$/i`; the result is the capture group. -/
def matchMagDigits : Str → Option Str
  | m :: a :: g :: rest =>
    if matchLetter 'M' 'm' m && matchLetter 'A' 'a' a && matchLetter 'G' 'g' g
        && matchDigits (rest.dropWhile isWhiteSpace)
    then some (rest.dropWhile isWhiteSpace) else none
  | _ => none

/-- The regular expression `/^MAG-(\d+)$/i`; the result is the capture group. -/
def matchMagDashDigits : Str → Option Str
  | m :: a :: g :: d :: rest =>
    if matchLetter 'M' 'm' m && matchLetter 'A' 'a' a && matchLetter 'G' 'g' g
        && decide (d = '-') && matchDigits rest
    then some rest else none
  | _ => none

/-- The normalisation step of `handleSearch` (lines 83 to 98): `normalizedTerm`
computed from the trimmed `searchTerm`. -/
def normalizeTerm (toUpperCase : Str → Str) (searchTerm : Str) : Str :=
  if matchDigits searchTerm then "MAG-".toList ++ padStart3 searchTerm
  else
    match matchMagDigits searchTerm with
    | some num => "MAG-".toList ++ padStart3 num
    | none =>
      match matchMagDashDigits searchTerm with
      | some num => "MAG-".toList ++ padStart3 num
      | none => toUpperCase searchTerm

/-- An element of the array returned by `searchLocations`. -/
structure SearchResult where
  statement : Str
  entity : Str
  place : Str
  locations : List Location
  summary : Str
  hasMultipleLocations : Bool
  deriving DecidableEq, Repr

/-- One step of the grouping loop: create the group of the location's statement if it
is missing, then push the location onto it. -/
def groupPush : List (Str × List Location) → Location → List (Str × List Location)
  | [], loc => [(loc.statement, [loc])]
  | (k, v) :: rest, loc =>
    if k = loc.statement then (k, v ++ [loc]) :: rest else (k, v) :: groupPush rest loc

/-- The object `groupedLocations`, its keys in insertion order. -/
def groupLocations (locs : List Location) : List (Str × List Location) :=
  locs.foldl groupPush []

/-- The array index written by a property key, if the key is the canonical decimal
form of an integer below 2^32 - 1. -/
def arrayIndex (k : Str) : Option Nat :=
  if matchDigits k && (decide (k = ['0']) || decide (k.head? ≠ some '0'))
      && decide (digitsValue 10 k < 4294967295)
  then some (digitsValue 10 k) else none

/-- A stable insertion into a list sorted by a key. -/
def insertByKey {α : Type} (key : α → Int) (a : α) : List α → List α
  | [] => [a]
  | b :: rest => if key b ≤ key a then b :: insertByKey key a rest else a :: b :: rest

/-- A stable sort by a key: the result of `Array.prototype.sort` with the comparator
`(a, b) => key(a) - key(b)`. -/
def sortByKey {α : Type} (key : α → Int) (l : List α) : List α :=
  l.foldl (fun sorted a => insertByKey key a sorted) []

/-- The call `Object.entries(obj)`: the array-index keys in ascending order, then the
other keys in insertion order. -/
def objectEntries {β : Type} (obj : List (Str × β)) : List (Str × β) :=
  sortByKey (fun e => ((arrayIndex e.1).getD 0 : Int))
      (obj.filter (fun e => (arrayIndex e.1).isSome))
    ++ obj.filter (fun e => !(arrayIndex e.1).isSome)

/-- The test of the statement pass on a group key. -/
def statementMatches (toUpperCase : Str → Str) (searchTerm originalTerm statement : Str) :
    Bool :=
  includes (toUpperCase statement) searchTerm
    || includes (toUpperCase statement) (toUpperCase originalTerm)

/-- The test of the place-name pass on a location. -/
def placeMatches (toUpperCase : Str → Str) (originalTerm : Str) (location : Location) :
    Bool :=
  includes (toUpperCase (orElse location.place [])) (toUpperCase originalTerm)

/-- The object pushed by the statement pass for a group and its first location. -/
def statementResult (statement : Str) (locations : List Location)
    (firstLocation : Location) : SearchResult :=
  { statement := statement
    entity := orElse firstLocation.entity "Unknown".toList
    place := orElse firstLocation.place "Unknown Location".toList
    locations := locations
    summary := orElse firstLocation.summary []
    hasMultipleLocations := decide (locations.length > 1) }

/-- The object pushed by the place-name pass for a group and the matching location. -/
def placeResult (statement : Str) (locations : List Location)
    (location : Location) : SearchResult :=
  { statement := statement
    entity := orElse location.entity "Unknown".toList
    place := orElse location.place "Unknown Location".toList
    locations := [location]
    summary := orElse location.summary []
    hasMultipleLocations := decide (locations.length > 1) }

/-- The statement pass (lines 122 to 138).  A group is never empty, so `locations[0]`
exists; the empty case is there only to make the function total. -/
def statementPass (toUpperCase : Str → Str) (searchTerm originalTerm : Str)
    (entries : List (Str × List Location)) : List SearchResult :=
  entries.filterMap (fun e =>
    if statementMatches toUpperCase searchTerm originalTerm e.1 then
      match e.2 with
      | [] => none
      | firstLocation :: _ => some (statementResult e.1 e.2 firstLocation)
    else none)

/-- The body of the inner loop of the place-name pass. -/
def placeStep (toUpperCase : Str → Str) (originalTerm statement : Str)
    (locations : List Location) (results : List SearchResult) (location : Location) :
    List SearchResult :=
  if placeMatches toUpperCase originalTerm location then
    if results.any (fun r => decide (r.statement = statement)) then results
    else results ++ [placeResult statement locations location]
  else results

/-- The place-name pass (lines 142 to 159). -/
def placePass (toUpperCase : Str → Str) (originalTerm : Str)
    (entries : List (Str × List Location)) (results : List SearchResult) :
    List SearchResult :=
  entries.foldl
    (fun res e => e.2.foldl (placeStep toUpperCase originalTerm e.1 e.2) res) results

/-- The sort key of a result: `parseInt(statement.replace('MAG-', '')) || 0`. -/
def sortKey (statement : Str) : Int :=
  (parseInt (removeFirst "MAG-".toList statement)).getD 0

/-- The method `searchLocations(searchTerm, originalTerm)`. -/
def searchLocations (toUpperCase : Str → Str) (allLocations : List Location)
    (searchTerm originalTerm : Str) : List SearchResult :=
  if allLocations.length = 0 then []
  else
    let entries := objectEntries (groupLocations allLocations)
    let results := statementPass toUpperCase searchTerm originalTerm entries
    let results :=
      if results.length = 0 then placePass toUpperCase originalTerm entries results
      else results
    sortByKey (fun r => sortKey r.statement) results

/-! ### The reference definition of the normalisation

Written from the words of the specification, as a relation between the trimmed input
and the normalised term: three shapes of input (concatenations) and a rest case. -/

/-- A string of decimal digits: at least one character, all of them digits. -/
def IsDigits (d : Str) : Prop := d ≠ [] ∧ ∀ c ∈ d, isDigit c = true

/-- The word MAG in any letter case. -/
def IsMag (p : Str) : Prop :=
  ∃ m a g, p = [m, a, g] ∧ (m = 'M' ∨ m = 'm') ∧ (a = 'A' ∨ a = 'a') ∧ (g = 'G' ∨ g = 'g')

/-- The digits `d` left-padded with zeros to 3 digits, after the prefix `MAG-`. -/
def canonicalId (d : Str) : Str :=
  "MAG-".toList ++ (if d.length < 3 then List.replicate (3 - d.length) '0' ++ d else d)

/-- The input is MAG, optional white space, digits. -/
def IsMagSpaceDigits (s : Str) : Prop :=
  ∃ p w d, IsMag p ∧ (∀ c ∈ w, isWhiteSpace c = true) ∧ IsDigits d ∧ s = p ++ w ++ d

/-- The input is MAG, a dash, digits. -/
def IsMagDashDigits (s : Str) : Prop :=
  ∃ p d, IsMag p ∧ IsDigits d ∧ s = p ++ '-' :: d

/-- The reference definition: what the normalised term of an input is. -/
inductive NormalizesTo (toUpperCase : Str → Str) : Str → Str → Prop
  | digits (d : Str) : IsDigits d → NormalizesTo toUpperCase d (canonicalId d)
  | magSpaceDigits (p w d : Str) :
      IsMag p → (∀ c ∈ w, isWhiteSpace c = true) → IsDigits d →
        NormalizesTo toUpperCase (p ++ w ++ d) (canonicalId d)
  | magDashDigits (p d : Str) :
      IsMag p → IsDigits d → NormalizesTo toUpperCase (p ++ '-' :: d) (canonicalId d)
  | other (s : Str) :
      ¬ IsDigits s → ¬ IsMagSpaceDigits s → ¬ IsMagDashDigits s →
        NormalizesTo toUpperCase s (toUpperCase s)

/-- Property read `groupedLocations[k]`. -/
def lookupGroup : List (Str × List Location) → Str → Option (List Location)
  | [], _ => none
  | (k', v) :: rest, k => if k' = k then some v else lookupGroup rest k

/-- The loaded locations of a statement, in loading order. -/
def locationsOfStatement (locs : List Location) (s : Str) : List Location :=
  locs.filter (fun l => decide (l.statement = s))

/-- What the place-name pass pushes for one group: the result of its first location
whose place name matches, if there is one. -/
def placeEntry (toUpperCase : Str → Str) (originalTerm : Str)
    (e : Str × List Location) : Option SearchResult :=
  (e.2.find? (placeMatches toUpperCase originalTerm)).map (placeResult e.1 e.2)

/-- The set P1 of the statement pass: the statement ids of loaded locations whose
upper-cased form contains the normalised term or the upper-cased raw term. -/
def InP1 (toUpperCase : Str → Str) (locs : List Location) (term raw s : Str) : Prop :=
  (∃ l ∈ locs, l.statement = s) ∧
    (term <:+: toUpperCase s ∨ toUpperCase raw <:+: toUpperCase s)

/-- The set P2 of the place-name pass: the statement ids having at least one loaded
location whose upper-cased place name contains the upper-cased raw term. -/
def InP2 (toUpperCase : Str → Str) (locs : List Location) (raw s : Str) : Prop :=
  ∃ l ∈ locs, l.statement = s ∧ toUpperCase raw <:+: toUpperCase l.place

/-- The array `results` before it is sorted. -/
def unsortedResults (toUpperCase : Str → Str) (locs : List Location) (term raw : Str) :
    List SearchResult :=
  if statementPass toUpperCase term raw (objectEntries (groupLocations locs)) = [] then
    (objectEntries (groupLocations locs)).filterMap (placeEntry toUpperCase raw)
  else statementPass toUpperCase term raw (objectEntries (groupLocations locs))

/-- The sort key in the words of the specification: the integer parsed from the id
with its `MAG-` prefix removed, and 0 when no integer can be parsed. -/
def prefixKey (statement : Str) : Int :=
  (parseInt (if startsWith statement "MAG-".toList then statement.drop 4 else statement)).getD 0

/-- A location record with the given statement id and place name. -/
def sampleLocation (statement place : String) : Location :=
  { statement := statement.toList, place := place.toList, entity := [], summary := [] }

/-- Whether both ends of a connection resolve: at least one location has statement
equal to its `from` and at least one has statement equal to its `to`. -/
def Resolvable (locs : List Location) (c : Connection) : Prop :=
  (∃ l ∈ locs, l.statement = c.from_) ∧ (∃ l ∈ locs, l.statement = c.to_)

/-- The states reached from `st0` by the three operations of the visibility controller. -/
inductive VisReachable (st0 : State) : State → Prop
  | start : VisReachable st0 st0
  | clear {st : State} : VisReachable st0 st → VisReachable st0 (clearAllConnections st)
  | single {st : State} (id : Str) :
      VisReachable st0 st → VisReachable st0 (highlightSingleConnection st id)
  | all {st : State} (s : Str) :
      VisReachable st0 st → VisReachable st0 (highlightAllConnectionsForStatement st s)

/-- A connection of a type outside the colour table that brings its own colour. -/
def connOwnColor : Connection :=
  { id := "c5".toList, from_ := stA, to_ := stB, type := "rumour".toList,
    strength := [], label := [], color := "#123456".toList }

/-- The lines among the members of a layer group. -/
def linesOf (ls : List Layer) : List Polyline :=
  ls.filterMap (fun l => match l with
    | Layer.polyline p => some p
    | Layer.marker _ => none)

/-! ## The search box (search.js, `handleSearch` and `displayResults`) -/

/-- What `resultsContainer.innerHTML` holds. -/
inductive ResultsContent where
  | blank
  | loading
  | noResults
  | resultList (results : List SearchResult)
  deriving DecidableEq, Repr

/-- The test `innerHTML.trim() !== ''` of `showResults`, negated. -/
def ResultsContent.isBlank : ResultsContent → Bool
  | ResultsContent.blank => true
  | ResultsContent.loading => false
  | ResultsContent.noResults => false
  | ResultsContent.resultList results => results.isEmpty

/-- The element `#search-results`: its content and whether `style.display` shows it. -/
structure ResultsContainer where
  innerHTML : ResultsContent
  shown : Bool
  deriving DecidableEq, Repr

/-- The fields of a `StatementSearch` object that `handleSearch` reads or writes.
`resultsContainer` and `clearSearchBtn` are `none` when the page has no such element;
`clearSearchBtn` holds whether the button is displayed.  `searchCalls` records the
arguments of every call of `searchLocations`. -/
structure StatementSearch where
  allLocations : List Location
  resultsContainer : Option ResultsContainer
  clearSearchBtn : Option Bool
  searchCalls : List (Str × Str)
  deriving DecidableEq, Repr

/-- The method `showResults()`. -/
def showResults (s : StatementSearch) : StatementSearch :=
  { s with
    resultsContainer := s.resultsContainer.map
      (fun c => if c.innerHTML.isBlank then c else { c with shown := true }) }

/-- The method `hideResults()`. -/
def hideResults (s : StatementSearch) : StatementSearch :=
  { s with resultsContainer := s.resultsContainer.map (fun c => { c with shown := false }) }

/-- The method `displayResults(results)`. -/
def displayResults (s : StatementSearch) (results : List SearchResult) : StatementSearch :=
  match s.resultsContainer with
  | none => s
  | some c =>
    if results.length = 0 then
      showResults { s with resultsContainer := some { c with innerHTML := ResultsContent.noResults } }
    else
      showResults
        { s with
          resultsContainer := some { c with innerHTML := ResultsContent.resultList results } }

/-- The method `handleSearch(e)`, `value` being `e.target.value`. -/
def handleSearch (toUpperCase : Str → Str) (s : StatementSearch) (value : Str) :
    StatementSearch :=
  let searchTerm := trim value
  if s.allLocations.length = 0 then
    match s.resultsContainer with
    | none => s
    | some c =>
      showResults { s with resultsContainer := some { c with innerHTML := ResultsContent.loading } }
  else if searchTerm.length < 1 then
    { hideResults s with clearSearchBtn := s.clearSearchBtn.map (fun _ => false) }
  else
    let normalizedTerm := normalizeTerm toUpperCase searchTerm
    let results := searchLocations toUpperCase s.allLocations normalizedTerm searchTerm
    displayResults
      { s with
        clearSearchBtn := s.clearSearchBtn.map (fun _ => true)
        searchCalls := s.searchCalls ++ [(normalizedTerm, searchTerm)] }
      results

/-! ## The location panel (map.js, `showLocation`) -/

/-- The properties bag of a location, as `showLocation` reads it. -/
structure Properties where
  place : Str
  statement : Str
  summary : Str
  date : Str
  statement_giver : Str
  supplemental : Str
  archivist_note : Str
  deriving DecidableEq, Repr

/-- An item of the connections section. -/
structure ConnectionItem where
  conn : Connection
  color : ColorValue
  otherStatement : Str
  deriving DecidableEq, Repr

/-- The pieces of markup `showLocation` appends to `contentHTML`, one constructor for
each template. -/
inductive PanelBlock where
  | paragraphs (ps : List Str)
  | statementDate (date : Str)
  | statementGiver (giver : Str)
  | supplementalInfo (text : Str)
  | archivistNote (note : Str)
  | connectionsSection (count : Nat) (items : List ConnectionItem)
  deriving DecidableEq, Repr

/-- The three insertion points of the panel. -/
structure Panel where
  title : Str
  meta : Str
  text : List PanelBlock
  deriving DecidableEq, Repr

/-- The pieces of a string between its line feeds: `summary.replace(/\n/g, '</p><p>')`
inside one `<p>` element gives one paragraph for each piece. -/
def splitLines : Str → List Str
  | [] => [[]]
  | c :: rest =>
    if c = '\n' then [] :: splitLines rest
    else
      match splitLines rest with
      | [] => [[c]]
      | line :: more => (c :: line) :: more

/-- The literal of the archivist-note test. -/
def defaultArchivistNote : Str := "Statement recorded for posterity.".toList

/-- The function `showLocation(properties)` of map.js. -/
def showLocation (st : State) (properties : Properties) : Panel :=
  let title := orElse properties.place "Unknown Location".toList
  let statement := orElse properties.statement "STATEMENT-UNKNOWN".toList
  let summary := orElse properties.summary "No statement summary available.".toList
  let relevant := relevantConnections st.allConnections statement
  { title := title
    meta := statement
    text :=
      [PanelBlock.paragraphs (splitLines summary)]
      ++ (if properties.date = [] then [] else [PanelBlock.statementDate properties.date])
      ++ (if properties.statement_giver = [] then []
          else [PanelBlock.statementGiver properties.statement_giver])
      ++ (if properties.supplemental = [] then []
          else [PanelBlock.supplementalInfo properties.supplemental])
      ++ (if properties.archivist_note ≠ [] ∧ properties.archivist_note ≠ defaultArchivistNote
          then [PanelBlock.archivistNote properties.archivist_note] else [])
      ++ (if relevant.length > 0 then
            [PanelBlock.connectionsSection relevant.length
              (relevant.map (fun conn =>
                { conn := conn
                  color := lineColor conn
                  otherStatement := if conn.from_ = statement then conn.to_ else conn.from_ }))]
          else []) }

/-- Whether a panel text contains an archivist-note block. -/
def hasArchivistNote (text : List PanelBlock) : Bool :=
  text.any (fun b => match b with
    | PanelBlock.archivistNote _ => true
    | _ => false)

/-- A search box over no loaded location, with an empty hidden results area. -/
def searchBeforeLoad : StatementSearch :=
  { allLocations := []
    resultsContainer := some { innerHTML := ResultsContent.blank, shown := false }
    clearSearchBtn := some false
    searchCalls := [] }

/-- A search box over three loaded locations, showing the results of an earlier query. -/
def searchAfterLoad : StatementSearch :=
  { allLocations := [locA, locA2, locB]
    resultsContainer := some { innerHTML := ResultsContent.noResults, shown := true }
    clearSearchBtn := some true
    searchCalls := [("LEEDS".toList, "leeds".toList)] }

/-! ## Lemmas on the layer dictionary -/

theorem getLayer_setLayer (r : List (Str × LayerGroup)) (k k' : Str) (g : LayerGroup) :
    getLayer (setLayer r k g) k' = if k = k' then some g else getLayer r k' := by
  induction r with
  | nil => simp [setLayer, getLayer]
  | cons e rest ih =>
    obtain ⟨a, b⟩ := e
    by_cases hak : a = k
    · subst hak
      by_cases h : a = k' <;> simp [setLayer, getLayer, h]
    · by_cases hak' : a = k'
      · subst hak'
        have hne : ¬ k = a := fun h => hak h.symm
        simp [setLayer, getLayer, hak, hne]
      · simp [setLayer, getLayer, hak, hak', ih]

theorem getLayer_map (r : List (Str × LayerGroup)) (f : LayerGroup → LayerGroup) (k : Str) :
    getLayer (r.map (fun e => (e.1, f e.2))) k = (getLayer r k).map f := by
  induction r with
  | nil => simp [getLayer]
  | cons e rest ih =>
    obtain ⟨a, b⟩ := e
    by_cases hak : a = k
    · simp [getLayer, hak]
    · simp [getLayer, hak, ih]

/-! ## Lemmas on the visibility controller -/

theorem clearAllConnections_layers (st : State) :
    (clearAllConnections st).allConnectionLayers
      = st.allConnectionLayers.map (fun e => (e.1, clearGroup e.2)) := by
  simp only [clearAllConnections, List.map_map]
  apply List.map_congr_left
  intro e _
  by_cases h : e.2.onMap = true <;> simp [clearGroup, removeFromMap, h]

theorem isAttached_clear (st : State) (id : Str) :
    isAttached (clearAllConnections st) id = false := by
  unfold isAttached
  rw [clearAllConnections_layers, getLayer_map]
  cases getLayer st.allConnectionLayers id <;> simp [clearGroup]

theorem getLayer_clear_isSome (st : State) (id : Str) :
    (getLayer (clearAllConnections st).allConnectionLayers id).isSome
      = (getLayer st.allConnectionLayers id).isSome := by
  rw [clearAllConnections_layers, getLayer_map]
  cases getLayer st.allConnectionLayers id <;> simp

theorem highlightSingle_of_none (st : State) (id : Str)
    (h : getLayer st.allConnectionLayers id = none) :
    highlightSingleConnection st id = st := by
  simp [highlightSingleConnection, h]

theorem highlightSingle_of_some (st : State) (id : Str) (g : LayerGroup)
    (h : getLayer st.allConnectionLayers id = some g) :
    highlightSingleConnection st id =
      { st with
        allConnectionLayers := setLayer st.allConnectionLayers id (showGroup g)
        currentlyHighlightedConnections :=
          if id ∈ st.currentlyHighlightedConnections
          then st.currentlyHighlightedConnections
          else st.currentlyHighlightedConnections ++ [id] } := by
  simp only [highlightSingleConnection, h, showGroup]
  by_cases hm : g.onMap = true <;> simp [hm, addToMap]

theorem highlightSingle_allConnections (st : State) (id : Str) :
    (highlightSingleConnection st id).allConnections = st.allConnections := by
  cases h : getLayer st.allConnectionLayers id with
  | none => rw [highlightSingle_of_none st id h]
  | some g => rw [highlightSingle_of_some st id g h]

theorem highlightSingle_selected (st : State) (id : Str) :
    (highlightSingleConnection st id).currentlySelectedStatement
      = st.currentlySelectedStatement := by
  cases h : getLayer st.allConnectionLayers id with
  | none => rw [highlightSingle_of_none st id h]
  | some g => rw [highlightSingle_of_some st id g h]

theorem highlightSingle_getLayer (st : State) (id k : Str) :
    getLayer (highlightSingleConnection st id).allConnectionLayers k
      = if id = k then (getLayer st.allConnectionLayers id).map showGroup
        else getLayer st.allConnectionLayers k := by
  cases h : getLayer st.allConnectionLayers id with
  | none =>
    rw [highlightSingle_of_none st id h]
    by_cases hk : id = k
    · subst hk
      simp [h]
    · simp [hk]
  | some g =>
    rw [highlightSingle_of_some st id g h]
    simp [getLayer_setLayer]

theorem highlightSingle_isSome (st : State) (id k : Str) :
    (getLayer (highlightSingleConnection st id).allConnectionLayers k).isSome
      = (getLayer st.allConnectionLayers k).isSome := by
  rw [highlightSingle_getLayer]
  by_cases hk : id = k
  · subst hk
    cases getLayer st.allConnectionLayers id <;> simp
  · simp [hk]

theorem highlightSingle_mem (st : State) (id k : Str) :
    k ∈ (highlightSingleConnection st id).currentlyHighlightedConnections ↔
      k ∈ st.currentlyHighlightedConnections ∨
        (k = id ∧ (getLayer st.allConnectionLayers id).isSome = true) := by
  cases h : getLayer st.allConnectionLayers id with
  | none =>
    rw [highlightSingle_of_none st id h]
    simp
  | some g =>
    rw [highlightSingle_of_some st id g h]
    by_cases hm : id ∈ st.currentlyHighlightedConnections
    · simp only [hm, if_true, Option.isSome_some, and_true]
      constructor
      · exact fun hk => Or.inl hk
      · rintro (hk | hk)
        · exact hk
        · exact hk ▸ hm
    · simp [hm]

theorem highlightSingle_nodup (st : State) (id : Str)
    (h : st.currentlyHighlightedConnections.Nodup) :
    (highlightSingleConnection st id).currentlyHighlightedConnections.Nodup := by
  cases hg : getLayer st.allConnectionLayers id with
  | none => rw [highlightSingle_of_none st id hg]; exact h
  | some g =>
    rw [highlightSingle_of_some st id g hg]
    by_cases hm : id ∈ st.currentlyHighlightedConnections
    · simpa [hm] using h
    · simp only [hm, if_false]
      rw [List.nodup_append]
      refine ⟨h, List.nodup_singleton _, ?_⟩
      intro a ha hb
      simp only [List.mem_singleton] at hb
      exact hm (hb ▸ ha)

theorem highlightSingle_isAttached (st : State) (id k : Str) :
    isAttached (highlightSingleConnection st id) k
      = if id = k then (getLayer st.allConnectionLayers id).isSome else isAttached st k := by
  unfold isAttached
  rw [highlightSingle_getLayer]
  by_cases hk : id = k
  · subst hk
    cases getLayer st.allConnectionLayers id <;> simp [showGroup]
  · simp [hk]

theorem consistent_clear (st : State) : Consistent (clearAllConnections st) := by
  intro id
  rw [isAttached_clear]
  simp [clearAllConnections]

theorem consistent_highlightSingle (st : State) (id : Str) (h : Consistent st) :
    Consistent (highlightSingleConnection st id) := by
  intro k
  rw [highlightSingle_isAttached, highlightSingle_mem]
  by_cases hk : id = k
  · subst hk
    simp only [if_true, true_and]
    constructor
    · exact fun hs => Or.inr hs
    · rintro (hm | hs)
      · have := (h id).2 hm
        unfold isAttached at this
        cases hg : getLayer st.allConnectionLayers id with
        | none => simp [hg] at this
        | some g => simp
      · exact hs
  · have hk' : ¬ k = id := fun e => hk e.symm
    simp [hk, hk', h k]

theorem foldl_highlight_consistent (cs : List Connection) (st : State) (h : Consistent st) :
    Consistent (cs.foldl (fun s conn => highlightSingleConnection s conn.id) st) := by
  induction cs generalizing st with
  | nil => exact h
  | cons c rest ih => exact ih _ (consistent_highlightSingle st c.id h)

theorem foldl_highlight_selected (cs : List Connection) (st : State) :
    (cs.foldl (fun s conn => highlightSingleConnection s conn.id) st).currentlySelectedStatement
      = st.currentlySelectedStatement := by
  induction cs generalizing st with
  | nil => rfl
  | cons c rest ih => simp only [List.foldl_cons, ih, highlightSingle_selected]

theorem foldl_highlight_allConnections (cs : List Connection) (st : State) :
    (cs.foldl (fun s conn => highlightSingleConnection s conn.id) st).allConnections
      = st.allConnections := by
  induction cs generalizing st with
  | nil => rfl
  | cons c rest ih => simp only [List.foldl_cons, ih, highlightSingle_allConnections]

theorem foldl_highlight_isSome (cs : List Connection) (st : State) (k : Str) :
    (getLayer (cs.foldl (fun s conn => highlightSingleConnection s conn.id) st).allConnectionLayers
        k).isSome = (getLayer st.allConnectionLayers k).isSome := by
  induction cs generalizing st with
  | nil => rfl
  | cons c rest ih => simp only [List.foldl_cons, ih, highlightSingle_isSome]

theorem foldl_highlight_nodup (cs : List Connection) (st : State)
    (h : st.currentlyHighlightedConnections.Nodup) :
    (cs.foldl (fun s conn => highlightSingleConnection s conn.id)
      st).currentlyHighlightedConnections.Nodup := by
  induction cs generalizing st with
  | nil => exact h
  | cons c rest ih => exact ih _ (highlightSingle_nodup st c.id h)

theorem foldl_highlight_mem (cs : List Connection) (st : State) (k : Str) :
    k ∈ (cs.foldl (fun s conn => highlightSingleConnection s conn.id)
          st).currentlyHighlightedConnections ↔
      k ∈ st.currentlyHighlightedConnections ∨
        ((∃ c ∈ cs, c.id = k) ∧ (getLayer st.allConnectionLayers k).isSome = true) := by
  induction cs generalizing st with
  | nil => simp
  | cons c rest ih =>
    simp only [List.foldl_cons]
    rw [ih, highlightSingle_mem, highlightSingle_isSome]
    constructor
    · rintro ((hm | ⟨hk, hs⟩) | ⟨⟨d, hd, hdk⟩, hs⟩)
      · exact Or.inl hm
      · exact Or.inr ⟨⟨c, List.mem_cons_self _ _, hk.symm⟩, hk ▸ hs⟩
      · exact Or.inr ⟨⟨d, List.mem_cons_of_mem _ hd, hdk⟩, hs⟩
    · rintro (hm | ⟨⟨d, hd, hdk⟩, hs⟩)
      · exact Or.inl (Or.inl hm)
      · rcases List.mem_cons.1 hd with hdc | hdr
        · subst hdc
          exact Or.inl (Or.inr ⟨hdk.symm, hdk ▸ hs⟩)
        · exact Or.inr ⟨⟨d, hdr, hdk⟩, hs⟩

/-- What `highlightAllConnectionsForStatement` leaves in the highlighted list. -/
theorem highlightAll_mem (st : State) (s k : Str) :
    k ∈ (highlightAllConnectionsForStatement st s).currentlyHighlightedConnections ↔
      s ≠ [] ∧ (∃ c ∈ st.allConnections, c.id = k ∧ (c.from_ = s ∨ c.to_ = s)) ∧
        (getLayer st.allConnectionLayers k).isSome = true := by
  unfold highlightAllConnectionsForStatement
  by_cases hs : s = []
  · simp [hs, clearAllConnections]
  · simp only [hs, if_false]
    have hall : (clearAllConnections st).allConnections = st.allConnections := rfl
    by_cases hr : (relevantConnections (clearAllConnections st).allConnections s).length = 0
    · simp only [hr, if_true]
      rw [hall] at hr
      have hnil : relevantConnections st.allConnections s = [] := List.length_eq_zero.1 hr
      constructor
      · intro hk
        simp [clearAllConnections] at hk
      · rintro ⟨_, ⟨c, hc, _, hcs⟩, _⟩
        have : c ∈ relevantConnections st.allConnections s := by
          simp [relevantConnections, hc, hcs]
        rw [hnil] at this
        simp at this
    · simp only [hr, if_false]
      rw [foldl_highlight_mem, getLayer_clear_isSome, hall]
      constructor
      · rintro (hm | ⟨⟨c, hc, hck⟩, hsome⟩)
        · simp [clearAllConnections] at hm
        · simp only [relevantConnections, List.mem_filter, decide_eq_true_eq] at hc
          exact ⟨hs, ⟨c, hc.1, hck, hc.2⟩, hsome⟩
      · rintro ⟨_, ⟨c, hc, hck, hcs⟩, hsome⟩
        refine Or.inr ⟨⟨c, ?_, hck⟩, hsome⟩
        simp [relevantConnections, hc, hcs]

theorem highlightAll_nodup (st : State) (s : Str) :
    (highlightAllConnectionsForStatement st s).currentlyHighlightedConnections.Nodup := by
  unfold highlightAllConnectionsForStatement
  have hc : (clearAllConnections st).currentlyHighlightedConnections.Nodup := by
    simp [clearAllConnections]
  by_cases hs : s = []
  · simpa [hs] using hc
  · by_cases hr : (relevantConnections (clearAllConnections st).allConnections s).length = 0
    · simpa [hs, hr] using hc
    · simp only [hs, hr, if_false]
      exact foldl_highlight_nodup _ _ hc

theorem highlightAll_consistent (st : State) (s : Str) :
    Consistent (highlightAllConnectionsForStatement st s) := by
  unfold highlightAllConnectionsForStatement
  by_cases hs : s = []
  · simpa [hs] using consistent_clear st
  · by_cases hr : (relevantConnections (clearAllConnections st).allConnections s).length = 0
    · simpa [hs, hr] using consistent_clear st
    · simp only [hs, hr, if_false]
      exact foldl_highlight_consistent _ _ (consistent_clear st)

theorem highlightAll_selected (st : State) (s : Str) :
    (highlightAllConnectionsForStatement st s).currentlySelectedStatement
      = st.currentlySelectedStatement := by
  unfold highlightAllConnectionsForStatement
  by_cases hs : s = []
  · simp only [hs, if_true]
    rfl
  · by_cases hr : (relevantConnections (clearAllConnections st).allConnections s).length = 0
    · simp only [hs, hr, if_true, if_false]
      rfl
    · simp only [hs, hr, if_false]
      rw [foldl_highlight_selected]
      rfl

/-! ## Lemmas on the connection index -/

theorem countLines_append (a b : List Layer) :
    countLines (a ++ b) = countLines a + countLines b := by
  simp [countLines]

theorem countLines_pairLayers (c : Connection) (f t : Nat × Location) :
    countLines (pairLayers c f t) = if f.1 = t.1 then 0 else 1 := by
  unfold pairLayers
  by_cases h : f.1 = t.1
  · simp [h, countLines]
  · by_cases hl : c.label = []
    · simp [h, hl, countLines, isLine]
    · simp [h, hl, countLines, isLine, List.filter]

theorem countLines_inner (c : Connection) (f : Nat × Location)
    (tos : List (Nat × Location)) :
    countLines (tos.flatMap (fun t => pairLayers c f t)) =
      ((tos.map (fun t => (f, t))).filter (fun p => decide (¬ p.1.1 = p.2.1))).length := by
  induction tos with
  | nil => simp [countLines]
  | cons t rest ih =>
    simp only [List.flatMap_cons, countLines_append, ih, countLines_pairLayers, List.map_cons]
    by_cases h : f.1 = t.1
    · simp [h, List.filter]
    · simp [h, List.filter]
      omega

theorem countLines_buildLayers (c : Connection) (froms tos : List (Nat × Location)) :
    countLines (buildLayers c froms tos) =
      ((pairsOf froms tos).filter (fun p => decide (¬ p.1.1 = p.2.1))).length := by
  unfold buildLayers pairsOf
  induction froms with
  | nil => simp [countLines]
  | cons f rest ih =>
    simp only [List.flatMap_cons, countLines_append, ih, countLines_inner,
      List.filter_append, List.length_append]

theorem length_pairsOf (froms tos : List (Nat × Location)) :
    (pairsOf froms tos).length = froms.length * tos.length := by
  unfold pairsOf
  induction froms with
  | nil => simp
  | cons f rest ih =>
    simp only [List.flatMap_cons, List.length_append, List.length_map, ih, List.length_cons]
    ring

theorem length_filter_split {α : Type} (p : α → Prop) [DecidablePred p] (l : List α) :
    (l.filter (fun x => decide (¬ p x))).length + (l.filter (fun x => decide (p x))).length
      = l.length := by
  induction l with
  | nil => simp
  | cons a rest ih =>
    by_cases h : p a
    · simp [List.filter, h] at ih ⊢
      omega
    · simp [List.filter, h] at ih ⊢
      omega

theorem countLines_add_selfPairs (c : Connection) (froms tos : List (Nat × Location)) :
    countLines (buildLayers c froms tos) + selfPairs froms tos
      = froms.length * tos.length := by
  rw [countLines_buildLayers, selfPairs, ← length_pairsOf]
  exact length_filter_split (fun p : (Nat × Location) × (Nat × Location) => p.1.1 = p.2.1) _

theorem findLocation_isSome (locs : List Location) (s : Str)
    (h : locationsOf locs s ≠ []) : ∃ p, findLocation locs s = some p := by
  unfold findLocation
  unfold locationsOf at h
  cases hf : (indexed locs).find? (fun p => decide (p.2.statement = s)) with
  | some p => exact ⟨p, rfl⟩
  | none =>
    exfalso
    apply h
    rw [List.find?_eq_none] at hf
    rw [List.filter_eq_nil_iff]
    exact hf

theorem highlightAll_allConnections (st : State) (s : Str) :
    (highlightAllConnectionsForStatement st s).allConnections = st.allConnections := by
  unfold highlightAllConnectionsForStatement
  by_cases hs : s = []
  · simp only [hs, if_true]
    rfl
  · by_cases hr : (relevantConnections (clearAllConnections st).allConnections s).length = 0
    · simp only [hs, hr, if_true, if_false]
      rfl
    · simp only [hs, hr, if_false]
      rw [foldl_highlight_allConnections]
      rfl

theorem highlightAll_isSome (st : State) (s k : Str) :
    (getLayer (highlightAllConnectionsForStatement st s).allConnectionLayers k).isSome
      = (getLayer st.allConnectionLayers k).isSome := by
  unfold highlightAllConnectionsForStatement
  by_cases hs : s = []
  · simp only [hs, if_true]
    exact getLayer_clear_isSome st k
  · by_cases hr : (relevantConnections (clearAllConnections st).allConnections s).length = 0
    · simp only [hs, hr, if_true, if_false]
      exact getLayer_clear_isSome st k
    · simp only [hs, hr, if_false]
      rw [foldl_highlight_isSome]
      exact getLayer_clear_isSome st k

theorem highlightAll_eq_nil_iff (st : State) (s : Str) :
    (highlightAllConnectionsForStatement st s).currentlyHighlightedConnections = [] ↔
      ¬ HasShownConnection st s := by
  rw [List.eq_nil_iff_forall_not_mem]
  constructor
  · rintro h ⟨hs, c, hc, hcs, hsome⟩
    exact h c.id ((highlightAll_mem st s c.id).2 ⟨hs, ⟨c, hc, rfl, hcs⟩, hsome⟩)
  · intro h k hk
    obtain ⟨hs, ⟨c, hc, hck, hcs⟩, hsome⟩ := (highlightAll_mem st s k).1 hk
    exact h ⟨hs, c, hc, hcs, hck ▸ hsome⟩

theorem markerClick_selected_shown (st : State) (s : Str)
    (h : st.currentlySelectedStatement = some s)
    (hp : st.currentlyHighlightedConnections.length > 0) :
    markerClick st s =
      { clearAllConnections st with currentlySelectedStatement := none } := by
  simp only [markerClick, h, hp, if_true]

theorem markerClick_selected_hidden (st : State) (s : Str)
    (h : st.currentlySelectedStatement = some s)
    (hp : ¬ st.currentlyHighlightedConnections.length > 0) :
    markerClick st s = highlightAllConnectionsForStatement st s := by
  simp only [markerClick, h, hp, if_true, if_false]

theorem markerClick_other (st : State) (s : Str)
    (h : ¬ st.currentlySelectedStatement = some s) :
    markerClick st s =
      highlightAllConnectionsForStatement
        { clearAllConnections st with currentlySelectedStatement := some s } s := by
  simp only [markerClick, h, if_false]

/-! ## The claims on the visibility controller and the selection state -/

/-- C1 (as stated, refuted): with one location for MAG-001 only and the connection c1
between MAG-001 and MAG-002, `clearAllConnections` followed by
`highlightAllConnectionsForStatement("MAG-001")` does not leave exactly the ids of the
connections with `from` or `to` equal to MAG-001 in the highlighted list: c1 is missing,
because `createConnectionLayer` built no layer for it. -/
theorem highlightAll_misses_skipped_connection :
    ¬ (∀ id, id ∈ (highlightAllConnectionsForStatement
          (clearAllConnections (loadData [locA] [connAB])) stA).currentlyHighlightedConnections ↔
        ∃ c ∈ [connAB], c.id = id ∧ (c.from_ = stA ∨ c.to_ = stA)) := by
  intro h
  have hin := (h connAB.id).2 ⟨connAB, List.mem_singleton.2 rfl, rfl, Or.inl rfl⟩
  revert hin
  decide

/-- C1 (amended): from every state and for every statement id S, `clearAllConnections`
followed by `highlightAllConnectionsForStatement(S)` leaves in
`currentlyHighlightedConnections` exactly the ids of the connections c with
`c.from == S` or `c.to == S` that have a layer in `allConnectionLayers`, S being a
non-empty string, each id once; a further `clearAllConnections` leaves the list empty
and no connection layer attached to the map. -/
theorem highlightAll_after_clear_exact (st : State) (S : Str) :
    (∀ id, id ∈ (highlightAllConnectionsForStatement (clearAllConnections st)
          S).currentlyHighlightedConnections ↔
        S ≠ [] ∧ (∃ c ∈ st.allConnections, c.id = id ∧ (c.from_ = S ∨ c.to_ = S)) ∧
          (getLayer st.allConnectionLayers id).isSome = true) ∧
    (highlightAllConnectionsForStatement (clearAllConnections st)
          S).currentlyHighlightedConnections.Nodup ∧
    (clearAllConnections (highlightAllConnectionsForStatement (clearAllConnections st)
          S)).currentlyHighlightedConnections = [] ∧
    ∀ id, isAttached (clearAllConnections (highlightAllConnectionsForStatement
          (clearAllConnections st) S)) id = false := by
  refine ⟨?_, highlightAll_nodup _ _, rfl, fun id => isAttached_clear _ id⟩
  intro id
  rw [highlightAll_mem, getLayer_clear_isSome]
  rfl

/-- C2 (as stated, refuted): from the freshly loaded state (nothing selected, nothing
highlighted), two clicks on the marker of MAG-003, a statement that has a location and
no connection, end with MAG-003 still selected. -/
theorem second_markerClick_keeps_selection :
    (loadData [locA, locB, locC] [connAB]).currentlySelectedStatement = none ∧
    (loadData [locA, locB, locC] [connAB]).currentlyHighlightedConnections = [] ∧
    (markerClick (markerClick (loadData [locA, locB, locC] [connAB]) stC)
        stC).currentlySelectedStatement = some stC := by
  decide

/-- C2 (amended): starting from a state with no selected statement (in particular one
that also has no highlighted connection), two consecutive marker clicks on S end with
`currentlyHighlightedConnections` empty, and with `currentlySelectedStatement = null`
exactly when S is non-empty and at least one connection with `from` or `to` equal to S
has a layer; otherwise S stays selected. -/
theorem markerClick_twice (st : State) (S : Str)
    (hsel : st.currentlySelectedStatement = none) :
    (markerClick (markerClick st S) S).currentlyHighlightedConnections = [] ∧
    ((markerClick (markerClick st S) S).currentlySelectedStatement = none ↔
      HasShownConnection st S) ∧
    (¬ HasShownConnection st S →
      (markerClick (markerClick st S) S).currentlySelectedStatement = some S) := by
  have hne : ¬ st.currentlySelectedStatement = some S := by simp [hsel]
  have h1 : markerClick st S = highlightAllConnectionsForStatement
      { clearAllConnections st with currentlySelectedStatement := some S } S :=
    markerClick_other st S hne
  have hsel1 : (markerClick st S).currentlySelectedStatement = some S := by
    rw [h1, highlightAll_selected]
  have hshown : HasShownConnection
      { clearAllConnections st with currentlySelectedStatement := some S } S ↔
      HasShownConnection st S := by
    unfold HasShownConnection
    have hl : ∀ k, (getLayer (clearAllConnections st).allConnectionLayers k).isSome
        = (getLayer st.allConnectionLayers k).isSome := getLayer_clear_isSome st
    simp only [hl]
    rfl
  have hshown1 : HasShownConnection (markerClick st S) S ↔ HasShownConnection st S := by
    rw [← hshown, h1]
    unfold HasShownConnection
    simp only [highlightAll_allConnections, highlightAll_isSome]
  have hnil1 : (markerClick st S).currentlyHighlightedConnections = [] ↔
      ¬ HasShownConnection st S := by
    rw [h1, highlightAll_eq_nil_iff, hshown]
  by_cases hc : HasShownConnection st S
  · have hpos : (markerClick st S).currentlyHighlightedConnections.length > 0 := by
      apply List.length_pos.2
      intro hn
      exact (hnil1.1 hn) hc
    have h2 : markerClick (markerClick st S) S =
        { clearAllConnections (markerClick st S) with currentlySelectedStatement := none } :=
      markerClick_selected_shown (markerClick st S) S hsel1 hpos
    rw [h2]
    exact ⟨rfl, ⟨fun _ => hc, fun _ => rfl⟩, fun hn => absurd hc hn⟩
  · have hzero : ¬ (markerClick st S).currentlyHighlightedConnections.length > 0 := by
      rw [hnil1.2 hc]
      simp
    have h2 : markerClick (markerClick st S) S =
        highlightAllConnectionsForStatement (markerClick st S) S :=
      markerClick_selected_hidden (markerClick st S) S hsel1 hzero
    rw [h2]
    refine ⟨?_, ⟨?_, fun hh => absurd hh hc⟩, fun _ => ?_⟩
    · rw [highlightAll_eq_nil_iff, hshown1]
      exact hc
    · rw [highlightAll_selected, hsel1]
      simp
    · rw [highlightAll_selected, hsel1]

/-- A run of `markerClick_twice`: MAG-001 has the connection c1, whose layer was built,
so the second click deselects it. -/
theorem markerClick_twice_witness :
    (loadData [locA, locB] [connAB]).currentlySelectedStatement = none ∧
    ((markerClick (markerClick (loadData [locA, locB] [connAB]) stA)
        stA).currentlyHighlightedConnections = [] ∧
      ((markerClick (markerClick (loadData [locA, locB] [connAB]) stA)
          stA).currentlySelectedStatement = none ↔
        HasShownConnection (loadData [locA, locB] [connAB]) stA) ∧
      (¬ HasShownConnection (loadData [locA, locB] [connAB]) stA →
        (markerClick (markerClick (loadData [locA, locB] [connAB]) stA)
          stA).currentlySelectedStatement = some stA)) :=
  ⟨by decide, markerClick_twice (loadData [locA, locB] [connAB]) stA (by decide)⟩

theorem locationsOf_ne_nil (locs : List Location) (s : Str)
    (h : ∃ l ∈ locs, l.statement = s) : locationsOf locs s ≠ [] := by
  obtain ⟨l, hl, hs⟩ := h
  obtain ⟨i, hi⟩ := List.mem_iff_getElem?.1 hl
  have hmem : (i, l) ∈ locationsOf locs s := by
    unfold locationsOf indexed
    rw [List.mem_filter]
    exact ⟨List.mk_mem_enum_iff_getElem?.2 hi, by simp [hs]⟩
  intro hnil
  rw [hnil] at hmem
  simp at hmem

/-- C3: for every connection C for which at least one location has statement `C.from`
and at least one has statement `C.to`, `createConnectionLayer` stores under `C.id` a
layer with exactly |fromLocations| × |toLocations| − |self-pairs| lines, where
fromLocations / toLocations are all locations whose statement is `C.from` / `C.to` and
a self-pair is a (from, to) pair made of the same location record. -/
theorem createConnectionLayer_lineCount (st : State) (C : Connection)
    (hfrom : ∃ l ∈ st.allLocations, l.statement = C.from_)
    (hto : ∃ l ∈ st.allLocations, l.statement = C.to_) :
    ∃ g, getLayer (createConnectionLayer st C).allConnectionLayers C.id = some g ∧
      lineCount g =
        (locationsOf st.allLocations C.from_).length * (locationsOf st.allLocations C.to_).length
          - selfPairs (locationsOf st.allLocations C.from_)
              (locationsOf st.allLocations C.to_) := by
  obtain ⟨pf, hpf⟩ := findLocation_isSome _ _ (locationsOf_ne_nil _ _ hfrom)
  obtain ⟨pt, hpt⟩ := findLocation_isSome _ _ (locationsOf_ne_nil _ _ hto)
  refine ⟨{ layers := buildLayers C (locationsOf st.allLocations C.from_)
              (locationsOf st.allLocations C.to_), onMap := false }, ?_, ?_⟩
  · simp only [createConnectionLayer, hpf, hpt, getLayer_setLayer, if_true]
  · have h := countLines_add_selfPairs C (locationsOf st.allLocations C.from_)
      (locationsOf st.allLocations C.to_)
    simp only [lineCount]
    omega

/-- A run of `createConnectionLayer_lineCount`: MAG-001 has two locations, the
connection c4 joins MAG-001 with itself, and its layer gets 2 × 2 − 2 = 2 lines. -/
theorem createConnectionLayer_lineCount_witness :
    (∃ l ∈ (loadData [locA, locA2, locB] []).allLocations, l.statement = connAA.from_) ∧
    (∃ l ∈ (loadData [locA, locA2, locB] []).allLocations, l.statement = connAA.to_) ∧
    selfPairs (locationsOf [locA, locA2, locB] stA) (locationsOf [locA, locA2, locB] stA) = 2 ∧
    ∃ g, getLayer (createConnectionLayer (loadData [locA, locA2, locB] [])
          connAA).allConnectionLayers connAA.id = some g ∧
      lineCount g =
        (locationsOf (loadData [locA, locA2, locB] []).allLocations connAA.from_).length
            * (locationsOf (loadData [locA, locA2, locB] []).allLocations connAA.to_).length
          - selfPairs (locationsOf (loadData [locA, locA2, locB] []).allLocations connAA.from_)
              (locationsOf (loadData [locA, locA2, locB] []).allLocations connAA.to_) :=
  ⟨⟨locA, by decide, by decide⟩, ⟨locA, by decide, by decide⟩, by decide,
    createConnectionLayer_lineCount (loadData [locA, locA2, locB] []) connAA
      ⟨locA, by decide, by decide⟩ ⟨locA, by decide, by decide⟩⟩

/-! ### The invariant linking the map and the highlighted list -/

theorem createConnectionLayer_quiet (st : State) (c : Connection)
    (h : st.currentlyHighlightedConnections = [] ∧ ∀ k, isAttached st k = false) :
    (createConnectionLayer st c).currentlyHighlightedConnections = [] ∧
      ∀ k, isAttached (createConnectionLayer st c) k = false := by
  unfold createConnectionLayer
  cases hf : findLocation st.allLocations c.from_ with
  | none => simpa [hf] using h
  | some pf =>
    cases ht : findLocation st.allLocations c.to_ with
    | none => simpa [hf, ht] using h
    | some pt =>
      refine ⟨h.1, fun k => ?_⟩
      have hk := h.2 k
      unfold isAttached at hk ⊢
      simp only [getLayer_setLayer]
      by_cases hck : c.id = k
      · simp [hck]
      · simpa [hck] using hk

theorem foldl_create_quiet (cs : List Connection) (st : State)
    (h : st.currentlyHighlightedConnections = [] ∧ ∀ k, isAttached st k = false) :
    (cs.foldl createConnectionLayer st).currentlyHighlightedConnections = [] ∧
      ∀ k, isAttached (cs.foldl createConnectionLayer st) k = false := by
  induction cs generalizing st with
  | nil => exact h
  | cons c rest ih => exact ih _ (createConnectionLayer_quiet st c h)

theorem consistent_loadData (locs : List Location) (conns : List Connection) :
    Consistent (loadData locs conns) := by
  have h := foldl_create_quiet conns
    { allLocations := locs, allConnections := conns, allConnectionLayers := [],
      currentlyHighlightedConnections := [], currentlySelectedStatement := none }
    ⟨rfl, fun k => rfl⟩
  intro id
  unfold loadData
  rw [h.1, h.2 id]
  simp

theorem consistent_markerClick (st : State) (s : Str) : Consistent (markerClick st s) := by
  by_cases h : st.currentlySelectedStatement = some s
  · by_cases hp : st.currentlyHighlightedConnections.length > 0
    · rw [markerClick_selected_shown st s h hp]
      exact consistent_clear st
    · rw [markerClick_selected_hidden st s h hp]
      exact highlightAll_consistent st s
  · rw [markerClick_other st s h]
    exact highlightAll_consistent _ s

theorem consistent_toggle (st : State) (s : Str) :
    Consistent (toggleConnectionsForStatement st s) := by
  unfold toggleConnectionsForStatement
  by_cases h : st.currentlySelectedStatement = some s ∧
      st.currentlyHighlightedConnections.length > 0
  · simp only [h, and_self, if_true]
    exact consistent_clear st
  · simp only [h, if_false]
    exact highlightAll_consistent _ s

/-- C4: in every state reachable from the freshly built index by any sequence of
`clearAllConnections`, `highlightSingleConnection`, `highlightAllConnectionsForStatement`,
marker clicks, empty-map clicks and `toggleConnectionsForStatement`, the layer of a
connection id is attached to the map if and only if that id is in
`currentlyHighlightedConnections`. -/
theorem reachable_attached_iff_highlighted (locs : List Location) (conns : List Connection)
    (st : State) (h : Reachable locs conns st) (id : Str) :
    isAttached st id = true ↔ id ∈ st.currentlyHighlightedConnections := by
  have hc : Consistent st := by
    induction h with
    | init => exact consistent_loadData locs conns
    | clear _ _ => exact consistent_clear _
    | single k _ ih => exact consistent_highlightSingle _ k ih
    | all s _ _ => exact highlightAll_consistent _ s
    | marker s _ _ => exact consistent_markerClick _ s
    | emptyMap _ _ => exact consistent_clear _
    | toggle s _ _ => exact consistent_toggle _ s
  exact hc id

/-- A run of `reachable_attached_iff_highlighted`: after a click on the marker of
MAG-001 and a click on the line of c1, the layer of c2 is attached and c2 is listed. -/
theorem reachable_attached_iff_highlighted_witness :
    Reachable [locA, locB] [connAB, connBA]
      (highlightSingleConnection
        (markerClick (loadData [locA, locB] [connAB, connBA]) stA) connAB.id) ∧
    (isAttached (highlightSingleConnection
        (markerClick (loadData [locA, locB] [connAB, connBA]) stA) connAB.id) connBA.id = true ↔
      connBA.id ∈ (highlightSingleConnection
        (markerClick (loadData [locA, locB] [connAB, connBA]) stA)
          connAB.id).currentlyHighlightedConnections) :=
  ⟨Reachable.single _ (Reachable.marker _ Reachable.init),
    reachable_attached_iff_highlighted [locA, locB] [connAB, connBA] _
      (Reachable.single _ (Reachable.marker _ Reachable.init)) connBA.id⟩

/-! ### The toggle rule of the marker click handler -/

theorem highlightSingle_setSelected (st : State) (x : Option Str) (id : Str) :
    highlightSingleConnection { st with currentlySelectedStatement := x } id
      = { highlightSingleConnection st id with currentlySelectedStatement := x } := by
  cases h : getLayer st.allConnectionLayers id with
  | none =>
    rw [highlightSingle_of_none st id h, highlightSingle_of_none _ id (by simpa using h)]
  | some g =>
    rw [highlightSingle_of_some st id g h, highlightSingle_of_some _ id g (by simpa using h)]

theorem foldl_highlight_setSelected (cs : List Connection) (st : State) (x : Option Str) :
    cs.foldl (fun s conn => highlightSingleConnection s conn.id)
        { st with currentlySelectedStatement := x }
      = { cs.foldl (fun s conn => highlightSingleConnection s conn.id) st with
          currentlySelectedStatement := x } := by
  induction cs generalizing st with
  | nil => rfl
  | cons c rest ih =>
    simp only [List.foldl_cons]
    rw [highlightSingle_setSelected, ih]

theorem highlightAll_setSelected (st : State) (x : Option Str) (s : Str) :
    highlightAllConnectionsForStatement { st with currentlySelectedStatement := x } s
      = { highlightAllConnectionsForStatement st s with currentlySelectedStatement := x } := by
  unfold highlightAllConnectionsForStatement
  have hc : clearAllConnections { st with currentlySelectedStatement := x }
      = { clearAllConnections st with currentlySelectedStatement := x } := rfl
  by_cases hs : s = []
  · simp only [hs, if_true]
    exact hc
  · simp only [hs, if_false]
    rw [hc]
    have ha : ({ clearAllConnections st with currentlySelectedStatement := x } : State).allConnections
        = (clearAllConnections st).allConnections := rfl
    rw [ha]
    by_cases hr : (relevantConnections (clearAllConnections st).allConnections s).length = 0
    · simp only [hr, if_true]
    · simp only [hr, if_false]
      exact foldl_highlight_setSelected _ _ x

/-- C5: the marker click handler implements the three-case toggle rule for every state
and every statement S.  If S is selected and the highlighted list is non-empty,
afterwards nothing is highlighted, nothing is attached and no statement is selected.
If S is selected and nothing is highlighted, S is still selected and the state is the
one `highlightAllConnectionsForStatement(S)` produces.  If S was not the selected
statement, S is selected and the highlighted list and the layers are the ones
`highlightAllConnectionsForStatement(S)` produces from the cleared map. -/
theorem markerClick_toggle_rule (st : State) (S : Str) :
    (st.currentlySelectedStatement = some S ∧ st.currentlyHighlightedConnections ≠ [] →
      (markerClick st S).currentlyHighlightedConnections = [] ∧
      (markerClick st S).currentlySelectedStatement = none ∧
      ∀ id, isAttached (markerClick st S) id = false) ∧
    (st.currentlySelectedStatement = some S ∧ st.currentlyHighlightedConnections = [] →
      (markerClick st S).currentlySelectedStatement = some S ∧
      markerClick st S = highlightAllConnectionsForStatement st S) ∧
    (st.currentlySelectedStatement ≠ some S →
      (markerClick st S).currentlySelectedStatement = some S ∧
      (markerClick st S).currentlyHighlightedConnections =
        (highlightAllConnectionsForStatement (clearAllConnections st)
          S).currentlyHighlightedConnections ∧
      (markerClick st S).allConnectionLayers =
        (highlightAllConnectionsForStatement (clearAllConnections st)
          S).allConnectionLayers) := by
  refine ⟨?_, ?_, ?_⟩
  · rintro ⟨hsel, hne⟩
    have hp : st.currentlyHighlightedConnections.length > 0 :=
      List.length_pos.2 hne
    rw [markerClick_selected_shown st S hsel hp]
    exact ⟨rfl, rfl, fun id => isAttached_clear st id⟩
  · rintro ⟨hsel, hnil⟩
    have hp : ¬ st.currentlyHighlightedConnections.length > 0 := by
      rw [hnil]
      simp
    rw [markerClick_selected_hidden st S hsel hp]
    exact ⟨by rw [highlightAll_selected, hsel], rfl⟩
  · intro hsel
    rw [markerClick_other st S hsel, highlightAll_setSelected]
    exact ⟨rfl, rfl, rfl⟩

/-- Runs of `markerClick_toggle_rule`, one for each case: a click on the selected
MAG-001 while c1 is highlighted, a click on the selected MAG-003 (which has a marker
and no connection) while nothing is highlighted, and a first click on MAG-001. -/
theorem markerClick_toggle_rule_witness :
    ((markerClick (loadData [locA, locB] [connAB]) stA).currentlySelectedStatement = some stA ∧
      (markerClick (loadData [locA, locB] [connAB]) stA).currentlyHighlightedConnections ≠ [] ∧
      (markerClick (markerClick (loadData [locA, locB] [connAB]) stA)
        stA).currentlySelectedStatement = none) ∧
    ((markerClick (loadData [locA, locB, locC] [connAB]) stC).currentlySelectedStatement
        = some stC ∧
      (markerClick (loadData [locA, locB, locC] [connAB]) stC).currentlyHighlightedConnections
        = [] ∧
      (markerClick (markerClick (loadData [locA, locB, locC] [connAB]) stC)
        stC).currentlySelectedStatement = some stC) ∧
    ((loadData [locA, locB] [connAB]).currentlySelectedStatement ≠ some stA ∧
      (markerClick (loadData [locA, locB] [connAB]) stA).currentlySelectedStatement
        = some stA) :=
  ⟨⟨by decide, by decide,
      ((markerClick_toggle_rule (markerClick (loadData [locA, locB] [connAB]) stA) stA).1
        ⟨by decide, by decide⟩).2.1⟩,
    ⟨by decide, by decide,
      ((markerClick_toggle_rule (markerClick (loadData [locA, locB, locC] [connAB]) stC)
        stC).2.1
        ⟨by decide, by decide⟩).1⟩,
    ⟨by decide,
      ((markerClick_toggle_rule (loadData [locA, locB] [connAB]) stA).2.2 (by decide)).1⟩⟩

/-! ### Clicks on a connection line or label -/

/-- C6 (as stated, refuted): after a click on the marker of MAG-001, which highlights
c1 and c2, a click on the line of c1 leaves both highlighted: the highlighted list is
not `[c1]`, and the layer of c2 is still attached. -/
theorem connectionClick_keeps_other_connections :
    (connectionClick (markerClick (loadData [locA, locB] [connAB, connBA]) stA)
        connAB).currentlyHighlightedConnections ≠ [connAB.id] ∧
    isAttached (connectionClick (markerClick (loadData [locA, locB] [connAB, connBA]) stA)
        connAB) connBA.id = true := by
  decide

/-- C6 (amended): after a click on a line or label of a connection c (whose layer
therefore exists), c is highlighted and its layer is attached, and nothing else
changes: an id other than `c.id` is in `currentlyHighlightedConnections` exactly when
it was before the click, every other layer is as it was, and the selected statement is
as it was, whatever was selected and highlighted before the click. -/
theorem connectionClick_adds_connection (st : State) (c : Connection)
    (hl : (getLayer st.allConnectionLayers c.id).isSome = true) :
    c.id ∈ (connectionClick st c).currentlyHighlightedConnections ∧
    isAttached (connectionClick st c) c.id = true ∧
    (∀ id, id ≠ c.id →
      (id ∈ (connectionClick st c).currentlyHighlightedConnections ↔
        id ∈ st.currentlyHighlightedConnections)) ∧
    (∀ id, id ≠ c.id →
      getLayer (connectionClick st c).allConnectionLayers id
        = getLayer st.allConnectionLayers id) ∧
    (connectionClick st c).currentlySelectedStatement = st.currentlySelectedStatement := by
  unfold connectionClick
  refine ⟨?_, ?_, ?_, ?_, highlightSingle_selected st c.id⟩
  · rw [highlightSingle_mem]
    exact Or.inr ⟨rfl, hl⟩
  · rw [highlightSingle_isAttached]
    simpa using hl
  · intro id hid
    rw [highlightSingle_mem]
    simp [hid]
  · intro id hid
    rw [highlightSingle_getLayer]
    have : ¬ c.id = id := fun e => hid e.symm
    simp [this]

/-- A run of `connectionClick_adds_connection`: the click on the line of c1 while c1
and c2 are highlighted. -/
theorem connectionClick_adds_connection_witness :
    (getLayer (markerClick (loadData [locA, locB] [connAB, connBA])
        stA).allConnectionLayers connAB.id).isSome = true ∧
    (connectionClick (markerClick (loadData [locA, locB] [connAB, connBA]) stA)
        connAB).currentlyHighlightedConnections = [connAB.id, connBA.id] ∧
    isAttached (connectionClick (markerClick (loadData [locA, locB] [connAB, connBA]) stA)
        connAB) connAB.id = true :=
  ⟨by decide, by decide,
    (connectionClick_adds_connection
      (markerClick (loadData [locA, locB] [connAB, connBA]) stA) connAB (by decide)).2.1⟩

/-! ## The claims on the search -/

/-! ### Normalisation -/

theorem matchDigits_iff (s : Str) : matchDigits s = true ↔ IsDigits s := by
  simp [matchDigits, IsDigits, List.all_eq_true]

theorem canonicalId_eq (d : Str) : canonicalId d = "MAG-".toList ++ padStart3 d := by
  unfold canonicalId padStart3
  by_cases h : d.length < 3
  · simp [h]
  · have h0 : 3 - d.length = 0 := by omega
    simp [h, h0]

theorem digit_not_whiteSpace (c : Char) (h : isDigit c = true) : isWhiteSpace c = false := by
  simp only [isDigit, decide_eq_true_eq] at h
  simp only [isWhiteSpace, decide_eq_false_iff_not, List.mem_cons, List.mem_singleton,
    List.not_mem_nil, or_false]
  omega

theorem dropWhile_whiteSpace_append (w d : Str) (hw : ∀ c ∈ w, isWhiteSpace c = true)
    (hd : ∀ c, d.head? = some c → isWhiteSpace c = false) :
    (w ++ d).dropWhile isWhiteSpace = d := by
  induction w with
  | nil =>
    cases d with
    | nil => rfl
    | cons c rest => simp [List.dropWhile, hd c rfl]
  | cons c rest ih =>
    have hc := hw c (List.mem_cons_self _ _)
    simp only [List.cons_append, List.dropWhile, hc]
    exact ih (fun x hx => hw x (List.mem_cons_of_mem _ hx))

theorem isDigits_head (d : Str) (h : IsDigits d) :
    ∀ c, d.head? = some c → isDigit c = true := by
  intro c hc
  cases d with
  | nil => simp at hc
  | cons x rest =>
    simp only [List.head?_cons, Option.some.injEq] at hc
    exact hc ▸ h.2 x (List.mem_cons_self _ _)

theorem matchLetter_iff (u l c : Char) : matchLetter u l c = true ↔ (c = u ∨ c = l) := by
  simp [matchLetter]

theorem matchMagDigits_iff (s d : Str) :
    matchMagDigits s = some d ↔
      ∃ p w, IsMag p ∧ (∀ c ∈ w, isWhiteSpace c = true) ∧ IsDigits d ∧ s = p ++ w ++ d := by
  constructor
  · intro h
    match s, h with
    | m :: a :: g :: rest, h =>
      simp only [matchMagDigits] at h
      split at h
      · rename_i hc
        simp only [Bool.and_eq_true, matchLetter_iff, matchDigits_iff] at hc
        obtain ⟨⟨⟨hm, ha⟩, hg⟩, hdig⟩ := hc
        simp only [Option.some.injEq] at h
        subst h
        refine ⟨[m, a, g], rest.takeWhile isWhiteSpace, ⟨m, a, g, rfl, hm, ha, hg⟩, ?_, hdig, ?_⟩
        · intro c hcm
          exact (List.mem_takeWhile_imp hcm)
        · simp [List.takeWhile_append_dropWhile]
      · simp at h
  · rintro ⟨p, w, ⟨m, a, g, rfl, hm, ha, hg⟩, hw, hd, rfl⟩
    have hdrop : (w ++ d).dropWhile isWhiteSpace = d :=
      dropWhile_whiteSpace_append w d hw
        (fun c hc => digit_not_whiteSpace c (isDigits_head d hd c hc))
    have hmd : matchDigits d = true := (matchDigits_iff d).2 hd
    have hm' := (matchLetter_iff 'M' 'm' m).2 hm
    have ha' := (matchLetter_iff 'A' 'a' a).2 ha
    have hg' := (matchLetter_iff 'G' 'g' g).2 hg
    simp [matchMagDigits, hdrop, hmd, hm', ha', hg']

theorem matchMagDashDigits_iff (s d : Str) :
    matchMagDashDigits s = some d ↔ ∃ p, IsMag p ∧ IsDigits d ∧ s = p ++ '-' :: d := by
  constructor
  · intro h
    match s, h with
    | m :: a :: g :: x :: rest, h =>
      simp only [matchMagDashDigits] at h
      split at h
      · rename_i hc
        simp only [Bool.and_eq_true, matchLetter_iff, matchDigits_iff, decide_eq_true_eq] at hc
        obtain ⟨⟨⟨⟨hm, ha⟩, hg⟩, hx⟩, hdig⟩ := hc
        simp only [Option.some.injEq] at h
        subst h
        subst hx
        exact ⟨[m, a, g], ⟨m, a, g, rfl, hm, ha, hg⟩, hdig, rfl⟩
      · simp at h
  · rintro ⟨p, ⟨m, a, g, rfl, hm, ha, hg⟩, hd, rfl⟩
    have hmd : matchDigits d = true := (matchDigits_iff d).2 hd
    have hm' := (matchLetter_iff 'M' 'm' m).2 hm
    have ha' := (matchLetter_iff 'A' 'a' a).2 ha
    have hg' := (matchLetter_iff 'G' 'g' g).2 hg
    simp [matchMagDashDigits, hmd, hm', ha', hg']

theorem isMag_not_digits (p rest : Str) (hp : IsMag p) : matchDigits (p ++ rest) = false := by
  obtain ⟨m, a, g, rfl, hm, _, _⟩ := hp
  have hmd : isDigit m = false := by
    rcases hm with h | h <;> subst h <;> decide
  simp [matchDigits, hmd]

theorem isMag_dash_not_magDigits (p d : Str) (hp : IsMag p) :
    matchMagDigits (p ++ '-' :: d) = none := by
  obtain ⟨m, a, g, rfl, _, _, _⟩ := hp
  have hws : isWhiteSpace '-' = false := by decide
  have hdg : isDigit '-' = false := by decide
  simp [matchMagDigits, List.dropWhile, hws, matchDigits, hdg]

theorem normalizeTerm_sound (toUpperCase : Str → Str) (s : Str) :
    NormalizesTo toUpperCase s (normalizeTerm toUpperCase s) := by
  unfold normalizeTerm
  by_cases h1 : matchDigits s = true
  · simp only [h1, if_true]
    rw [← canonicalId_eq]
    exact NormalizesTo.digits s ((matchDigits_iff s).1 h1)
  · simp only [h1]
    cases h2 : matchMagDigits s with
    | some d =>
      obtain ⟨p, w, hp, hw, hd, rfl⟩ := (matchMagDigits_iff s d).1 h2
      simp only [Bool.false_eq_true, if_false]
      rw [← canonicalId_eq]
      exact NormalizesTo.magSpaceDigits p w d hp hw hd
    | none =>
      cases h3 : matchMagDashDigits s with
      | some d =>
        obtain ⟨p, hp, hd, rfl⟩ := (matchMagDashDigits_iff s d).1 h3
        simp only [Bool.false_eq_true, if_false]
        rw [← canonicalId_eq]
        exact NormalizesTo.magDashDigits p d hp hd
      | none =>
        simp only [Bool.false_eq_true, if_false]
        refine NormalizesTo.other s (fun h => h1 ((matchDigits_iff s).2 h)) ?_ ?_
        · rintro ⟨p, w, d, hp, hw, hd, hs⟩
          have := (matchMagDigits_iff s d).2 ⟨p, w, hp, hw, hd, hs⟩
          rw [h2] at this
          simp at this
        · rintro ⟨p, d, hp, hd, hs⟩
          have := (matchMagDashDigits_iff s d).2 ⟨p, hp, hd, hs⟩
          rw [h3] at this
          simp at this

theorem normalizeTerm_unique (toUpperCase : Str → Str) (s o : Str)
    (h : NormalizesTo toUpperCase s o) : o = normalizeTerm toUpperCase s := by
  cases h with
  | digits d hd =>
    have h1 := (matchDigits_iff s).2 hd
    simp [normalizeTerm, h1, canonicalId_eq]
  | magSpaceDigits p w d hp hw hd =>
    have h1 : matchDigits (p ++ w ++ d) = false := by
      rw [List.append_assoc]
      exact isMag_not_digits p (w ++ d) hp
    have h2 := (matchMagDigits_iff (p ++ w ++ d) d).2 ⟨p, w, hp, hw, hd, rfl⟩
    simp only [normalizeTerm, h1, h2, canonicalId_eq, Bool.false_eq_true, if_false]
  | magDashDigits p d hp hd =>
    have h1 : matchDigits (p ++ '-' :: d) = false := isMag_not_digits p _ hp
    have h2 := isMag_dash_not_magDigits p d hp
    have h3 := (matchMagDashDigits_iff (p ++ '-' :: d) d).2 ⟨p, hp, hd, rfl⟩
    simp [normalizeTerm, h1, h2, h3, canonicalId_eq]
  | other _ n1 n2 n3 =>
    have h1 : matchDigits s = false := by
      cases hm : matchDigits s with
      | false => rfl
      | true => exact absurd ((matchDigits_iff s).1 hm) n1
    have h2 : matchMagDigits s = none := by
      cases hm : matchMagDigits s with
      | none => rfl
      | some d =>
        obtain ⟨p, w, hp, hw, hd, hs⟩ := (matchMagDigits_iff s d).1 hm
        exact absurd ⟨p, w, d, hp, hw, hd, hs⟩ n2
    have h3 : matchMagDashDigits s = none := by
      cases hm : matchMagDashDigits s with
      | none => rfl
      | some d =>
        obtain ⟨p, hp, hd, hs⟩ := (matchMagDashDigits_iff s d).1 hm
        exact absurd ⟨p, d, hp, hd, hs⟩ n3
    simp [normalizeTerm, h1, h2, h3]

/-- C7: the normalisation step of `handleSearch` equals the reference definition on
every input, in particular on every trimmed non-empty one: the normalised term is
related to the input by `NormalizesTo` (digits d give MAG- and d left-padded with zeros
to 3 digits; MAG, optional white space, digits d, in any letter case, give the same;
MAG- and digits d, in any letter case, give the same; every other input gives its
upper-cased form), and it is the only term so related.  The inputs 7, MAG 7 and mag-7
all normalise to MAG-007. -/
theorem normalizeTerm_refines_reference (toUpperCase : Str → Str) (s : Str) :
    NormalizesTo toUpperCase s (normalizeTerm toUpperCase s) ∧
    (∀ o, NormalizesTo toUpperCase s o → o = normalizeTerm toUpperCase s) ∧
    normalizeTerm toUpperCase "7".toList = "MAG-007".toList ∧
    normalizeTerm toUpperCase "MAG 7".toList = "MAG-007".toList ∧
    normalizeTerm toUpperCase "mag-7".toList = "MAG-007".toList :=
  ⟨normalizeTerm_sound toUpperCase s, normalizeTerm_unique toUpperCase s, rfl, rfl, rfl⟩

/-! ### Substrings, sorting and `Object.entries` -/

theorem startsWith_iff (hay needle : Str) : startsWith hay needle = true ↔ needle <+: hay := by
  induction hay generalizing needle with
  | nil =>
    cases needle with
    | nil => simp [startsWith]
    | cons n rest => simp [startsWith]
  | cons h hay ih =>
    cases needle with
    | nil => simp [startsWith]
    | cons n rest =>
      simp only [startsWith, Bool.and_eq_true, decide_eq_true_eq, ih, List.cons_prefix_cons]
      constructor
      · rintro ⟨e, hp⟩
        exact ⟨e.symm, hp⟩
      · rintro ⟨e, hp⟩
        exact ⟨e.symm, hp⟩

theorem includes_iff (hay needle : Str) : includes hay needle = true ↔ needle <:+: hay := by
  induction hay with
  | nil =>
    simp only [includes, startsWith_iff, List.prefix_nil, List.infix_nil]
  | cons h hay ih =>
    simp only [includes, Bool.or_eq_true, startsWith_iff, ih, List.infix_cons_iff]

theorem insertByKey_perm {α : Type} (key : α → Int) (a : α) (l : List α) :
    (insertByKey key a l).Perm (a :: l) := by
  induction l with
  | nil => exact List.Perm.refl _
  | cons b rest ih =>
    unfold insertByKey
    by_cases h : key b ≤ key a
    · simp only [h, if_true]
      exact (List.Perm.cons b ih).trans (List.Perm.swap a b rest)
    · simp only [h, if_false]
      exact List.Perm.refl _

theorem foldl_insertByKey_perm {α : Type} (key : α → Int) (l acc : List α) :
    (l.foldl (fun sorted a => insertByKey key a sorted) acc).Perm (acc ++ l) := by
  induction l generalizing acc with
  | nil => simp
  | cons a rest ih =>
    simp only [List.foldl_cons]
    refine (ih _).trans ?_
    refine (List.Perm.append_right rest (insertByKey_perm key a acc)).trans ?_
    simpa using (@List.perm_middle _ a acc rest).symm

theorem sortByKey_perm {α : Type} (key : α → Int) (l : List α) :
    (sortByKey key l).Perm l := by
  simpa [sortByKey] using foldl_insertByKey_perm key l []

theorem insertByKey_sorted {α : Type} (key : α → Int) (a : α) (l : List α)
    (h : l.Pairwise (fun x y => key x ≤ key y)) :
    (insertByKey key a l).Pairwise (fun x y => key x ≤ key y) := by
  induction l with
  | nil => simp [insertByKey]
  | cons b rest ih =>
    rw [List.pairwise_cons] at h
    unfold insertByKey
    by_cases hba : key b ≤ key a
    · simp only [hba, if_true]
      rw [List.pairwise_cons]
      refine ⟨?_, ih h.2⟩
      intro x hx
      rcases List.mem_cons.1 ((insertByKey_perm key a rest).mem_iff.1 hx) with hxa | hxr
      · exact hxa ▸ hba
      · exact h.1 x hxr
    · simp only [hba, if_false]
      have hab : key a ≤ key b := by omega
      rw [List.pairwise_cons]
      refine ⟨?_, List.pairwise_cons.2 h⟩
      intro x hx
      rcases List.mem_cons.1 hx with hxb | hxr
      · exact hxb ▸ hab
      · exact le_trans hab (h.1 x hxr)

theorem foldl_insertByKey_sorted {α : Type} (key : α → Int) (l acc : List α)
    (h : acc.Pairwise (fun x y => key x ≤ key y)) :
    (l.foldl (fun sorted a => insertByKey key a sorted) acc).Pairwise
      (fun x y => key x ≤ key y) := by
  induction l generalizing acc with
  | nil => exact h
  | cons a rest ih => exact ih _ (insertByKey_sorted key a acc h)

theorem sortByKey_sorted {α : Type} (key : α → Int) (l : List α) :
    (sortByKey key l).Pairwise (fun x y => key x ≤ key y) :=
  foldl_insertByKey_sorted key l [] List.Pairwise.nil

theorem objectEntries_perm {β : Type} (obj : List (Str × β)) :
    (objectEntries obj).Perm obj := by
  unfold objectEntries
  exact (List.Perm.append_right _ (sortByKey_perm _ _)).trans (List.filter_append_perm _ obj)

/-! ### Grouping by statement -/

theorem lookupGroup_groupPush (g : List (Str × List Location)) (loc : Location) (k : Str) :
    lookupGroup (groupPush g loc) k =
      if loc.statement = k then some ((lookupGroup g k).getD [] ++ [loc])
      else lookupGroup g k := by
  induction g with
  | nil =>
    by_cases h : loc.statement = k <;> simp [groupPush, lookupGroup, h]
  | cons e rest ih =>
    obtain ⟨a, v⟩ := e
    by_cases ha : a = loc.statement
    · subst ha
      by_cases hk : loc.statement = k <;> simp [groupPush, lookupGroup, hk]
    · by_cases hk : a = k
      · subst hk
        have hne : ¬ loc.statement = a := fun e => ha e.symm
        simp [groupPush, lookupGroup, ha, hne]
      · simp [groupPush, lookupGroup, ha, hk, ih]

theorem keys_groupPush (g : List (Str × List Location)) (loc : Location) :
    (groupPush g loc).map Prod.fst =
      if loc.statement ∈ g.map Prod.fst then g.map Prod.fst
      else g.map Prod.fst ++ [loc.statement] := by
  induction g with
  | nil => simp [groupPush]
  | cons e rest ih =>
    obtain ⟨a, v⟩ := e
    by_cases ha : a = loc.statement
    · subst ha
      simp [groupPush]
    · have hne : ¬ loc.statement = a := fun e => ha e.symm
      simp only [groupPush, ha, if_false, List.map_cons, ih, List.mem_cons, hne, false_or]
      by_cases hm : loc.statement ∈ rest.map Prod.fst
      · simp only [hm, if_true]
      · simp only [hm, if_false, List.cons_append]

theorem groupLocations_snoc (locs : List Location) (loc : Location) :
    groupLocations (locs ++ [loc]) = groupPush (groupLocations locs) loc := by
  simp [groupLocations, List.foldl_append]

theorem keys_groupLocations_nodup (locs : List Location) :
    ((groupLocations locs).map Prod.fst).Nodup := by
  induction locs using List.reverseRecOn with
  | nil => simp [groupLocations]
  | append_singleton rest loc ih =>
    rw [groupLocations_snoc, keys_groupPush]
    by_cases hm : loc.statement ∈ (groupLocations rest).map Prod.fst
    · simpa [hm] using ih
    · simp only [hm, if_false]
      rw [List.nodup_append]
      refine ⟨ih, List.nodup_singleton _, ?_⟩
      intro a ha hb
      simp only [List.mem_singleton] at hb
      exact hm (hb ▸ ha)

theorem lookupGroup_groupLocations (locs : List Location) (k : Str) :
    lookupGroup (groupLocations locs) k =
      if locationsOfStatement locs k = [] then none
      else some (locationsOfStatement locs k) := by
  induction locs using List.reverseRecOn with
  | nil => simp [groupLocations, lookupGroup, locationsOfStatement]
  | append_singleton rest loc ih =>
    rw [groupLocations_snoc, lookupGroup_groupPush, ih]
    unfold locationsOfStatement
    by_cases hk : loc.statement = k
    · by_cases hn : List.filter (fun l => decide (l.statement = k)) rest = []
      · simp [hk, hn, List.filter_append, List.filter]
      · simp [hk, hn, List.filter_append, List.filter]
    · by_cases hn : List.filter (fun l => decide (l.statement = k)) rest = []
      · simp [hk, hn, List.filter_append, List.filter]
      · simp [hk, hn, List.filter_append, List.filter]

theorem mem_iff_lookupGroup (g : List (Str × List Location)) (h : (g.map Prod.fst).Nodup)
    (k : Str) (v : List Location) : (k, v) ∈ g ↔ lookupGroup g k = some v := by
  induction g with
  | nil => simp [lookupGroup]
  | cons e rest ih =>
    obtain ⟨a, w⟩ := e
    simp only [List.map_cons, List.nodup_cons] at h
    by_cases hak : a = k
    · subst hak
      simp only [lookupGroup, if_true, List.mem_cons, Prod.mk.injEq, true_and,
        Option.some.injEq]
      constructor
      · rintro (e | hm)
        · exact e.symm
        · exact absurd (List.mem_map_of_mem Prod.fst hm) h.1
      · intro e
        exact Or.inl e.symm
    · have hne : ¬ k = a := fun e => hak e.symm
      simp only [lookupGroup, hak, if_false, List.mem_cons, Prod.mk.injEq, hne, false_and,
        false_or]
      exact ih h.2

/-- The entries visited by the two passes: one per statement of a loaded location, each
with all the loaded locations of that statement. -/
theorem mem_entries_iff (locs : List Location) (k : Str) (v : List Location) :
    (k, v) ∈ objectEntries (groupLocations locs) ↔
      v = locationsOfStatement locs k ∧ v ≠ [] := by
  rw [(objectEntries_perm (groupLocations locs)).mem_iff,
    mem_iff_lookupGroup _ (keys_groupLocations_nodup locs), lookupGroup_groupLocations]
  by_cases hn : locationsOfStatement locs k = []
  · simp only [hn, if_true]
    constructor
    · intro h
      simp at h
    · rintro ⟨h1, h2⟩
      exact absurd h1 h2
  · simp only [hn, if_false, Option.some.injEq]
    constructor
    · intro h
      exact ⟨h.symm, h ▸ hn⟩
    · rintro ⟨h1, _⟩
      exact h1.symm

theorem keys_entries_nodup (locs : List Location) :
    ((objectEntries (groupLocations locs)).map Prod.fst).Nodup :=
  ((objectEntries_perm (groupLocations locs)).map Prod.fst).nodup_iff.2
    (keys_groupLocations_nodup locs)

theorem locationsOfStatement_ne_nil_iff (locs : List Location) (k : Str) :
    locationsOfStatement locs k ≠ [] ↔ ∃ l ∈ locs, l.statement = k := by
  unfold locationsOfStatement
  rw [Ne, List.filter_eq_nil_iff]
  simp

/-! ### The two passes -/

theorem statementPass_map_statement (toUpperCase : Str → Str) (term raw : Str)
    (entries : List (Str × List Location)) (h : ∀ e ∈ entries, e.2 ≠ []) :
    (statementPass toUpperCase term raw entries).map (fun r => r.statement) =
      (entries.filter (fun e => statementMatches toUpperCase term raw e.1)).map Prod.fst := by
  induction entries with
  | nil => rfl
  | cons e rest ih =>
    have ih' := ih (fun x hx => h x (List.mem_cons_of_mem _ hx))
    unfold statementPass at ih' ⊢
    obtain ⟨k, v⟩ := e
    cases v with
    | nil => exact absurd rfl (h (k, []) (List.mem_cons_self _ _))
    | cons first more =>
      by_cases hm : statementMatches toUpperCase term raw k = true
      · simp only [List.filterMap_cons, hm, if_true, List.map_cons, List.filter_cons]
        rw [ih']
        rfl
      · simp only [List.filterMap_cons, hm, if_false, List.filter_cons, ih',
          Bool.false_eq_true]

theorem mem_statementPass (toUpperCase : Str → Str) (term raw : Str)
    (entries : List (Str × List Location)) (r : SearchResult)
    (h : r ∈ statementPass toUpperCase term raw entries) :
    (r.statement, r.locations) ∈ entries ∧
      r.hasMultipleLocations = decide (r.locations.length > 1) := by
  unfold statementPass at h
  rw [List.mem_filterMap] at h
  obtain ⟨⟨k, v⟩, he, hr⟩ := h
  by_cases hm : statementMatches toUpperCase term raw k = true
  · cases v with
    | nil => simp [hm] at hr
    | cons first more =>
      simp only [hm, if_true, Option.some.injEq] at hr
      subst hr
      exact ⟨he, rfl⟩
  · simp [hm] at hr

theorem any_statement_iff (results : List SearchResult) (k : Str) :
    results.any (fun r => decide (r.statement = k)) = true ↔
      k ∈ results.map (fun r => r.statement) := by
  simp only [List.any_eq_true, decide_eq_true_eq, List.mem_map]

theorem placeStep_fold_seen (toUpperCase : Str → Str) (raw k : Str) (v ls : List Location)
    (res : List SearchResult) (hk : k ∈ res.map (fun r => r.statement)) :
    ls.foldl (placeStep toUpperCase raw k v) res = res := by
  induction ls with
  | nil => rfl
  | cons l rest ih =>
    have hany := (any_statement_iff res k).2 hk
    have hstep : placeStep toUpperCase raw k v res l = res := by
      unfold placeStep
      by_cases hp : placeMatches toUpperCase raw l = true
      · simp only [hp, hany, if_true]
      · simp only [hp, if_false, Bool.false_eq_true]
    simp only [List.foldl_cons, hstep, ih]

theorem placeStep_fold_new (toUpperCase : Str → Str) (raw k : Str) (v ls : List Location)
    (res : List SearchResult) (hk : ¬ k ∈ res.map (fun r => r.statement)) :
    ls.foldl (placeStep toUpperCase raw k v) res =
      res ++ ((ls.find? (placeMatches toUpperCase raw)).map (placeResult k v)).toList := by
  induction ls with
  | nil => simp
  | cons l rest ih =>
    have hany : ¬ res.any (fun r => decide (r.statement = k)) = true :=
      fun h => hk ((any_statement_iff res k).1 h)
    by_cases hp : placeMatches toUpperCase raw l = true
    · have hstep : placeStep toUpperCase raw k v res l = res ++ [placeResult k v l] := by
        unfold placeStep
        simp only [hp, hany, if_true, if_false, Bool.false_eq_true]
      have hseen : k ∈ (res ++ [placeResult k v l]).map (fun r => r.statement) := by
        simp [placeResult]
      simp only [List.foldl_cons, hstep, placeStep_fold_seen toUpperCase raw k v rest _ hseen,
        List.find?_cons, hp, Option.map_some', Option.toList_some]
    · have hstep : placeStep toUpperCase raw k v res l = res := by
        unfold placeStep
        simp only [hp, if_false, Bool.false_eq_true]
      have hp' : placeMatches toUpperCase raw l = false := by
        cases hb : placeMatches toUpperCase raw l with
        | false => rfl
        | true => exact absurd hb hp
      simp only [List.foldl_cons, hstep, ih, List.find?_cons, hp']

theorem placeEntry_statement (toUpperCase : Str → Str) (raw : Str)
    (e : Str × List Location) (r : SearchResult)
    (h : placeEntry toUpperCase raw e = some r) : r.statement = e.1 := by
  unfold placeEntry at h
  cases hf : e.2.find? (placeMatches toUpperCase raw) with
  | none => simp [hf] at h
  | some l =>
    simp only [hf, Option.map_some', Option.some.injEq] at h
    rw [← h]
    rfl

theorem placePass_eq (toUpperCase : Str → Str) (raw : Str)
    (entries : List (Str × List Location)) (res : List SearchResult)
    (hnd : (entries.map Prod.fst).Nodup)
    (hdis : ∀ e ∈ entries, ¬ e.1 ∈ res.map (fun r => r.statement)) :
    placePass toUpperCase raw entries res =
      res ++ entries.filterMap (placeEntry toUpperCase raw) := by
  induction entries generalizing res with
  | nil => simp [placePass]
  | cons e rest ih =>
    simp only [List.map_cons, List.nodup_cons] at hnd
    have hnew := placeStep_fold_new toUpperCase raw e.1 e.2 e.2 res
      (hdis e (List.mem_cons_self _ _))
    unfold placePass at ih ⊢
    simp only [List.foldl_cons, hnew]
    rw [ih _ hnd.2]
    · cases hf : placeEntry toUpperCase raw e with
      | none =>
        have hf' : List.find? (placeMatches toUpperCase raw) e.2 = none := by
          unfold placeEntry at hf
          simpa using hf
        simp [List.filterMap_cons, hf, hf']
      | some r =>
        unfold placeEntry at hf
        simp [List.filterMap_cons, placeEntry, hf]
    · intro x hx hmem
      rw [List.map_append, List.mem_append] at hmem
      rcases hmem with hm | hm
      · exact hdis x (List.mem_cons_of_mem _ hx) hm
      · cases hf : e.2.find? (placeMatches toUpperCase raw) with
        | none => simp [hf] at hm
        | some l =>
          simp only [hf, Option.map_some', Option.toList_some, List.map_cons, List.map_nil,
            List.mem_singleton, placeResult] at hm
          exact hnd.1 (hm ▸ List.mem_map_of_mem Prod.fst hx)

theorem placePass_map_statement (toUpperCase : Str → Str) (raw : Str)
    (entries : List (Str × List Location)) :
    (entries.filterMap (placeEntry toUpperCase raw)).map (fun r => r.statement) =
      (entries.filter
        (fun e => (e.2.find? (placeMatches toUpperCase raw)).isSome)).map Prod.fst := by
  induction entries with
  | nil => rfl
  | cons e rest ih =>
    cases hf : e.2.find? (placeMatches toUpperCase raw) with
    | none => simp [List.filterMap_cons, placeEntry, hf, List.filter_cons, ih]
    | some l =>
      simp only [List.filterMap_cons, placeEntry, hf, Option.map_some', List.map_cons,
        List.filter_cons, Option.isSome_some, if_true]
      rw [← ih]
      rfl

theorem searchLocations_eq (toUpperCase : Str → Str) (locs : List Location) (term raw : Str) :
    searchLocations toUpperCase locs term raw =
      sortByKey (fun r => sortKey r.statement) (unsortedResults toUpperCase locs term raw) := by
  unfold searchLocations unsortedResults
  by_cases hl : locs.length = 0
  · have hnil : locs = [] := List.length_eq_zero.1 hl
    subst hnil
    rfl
  · simp only [hl, if_false]
    by_cases hp : statementPass toUpperCase term raw (objectEntries (groupLocations locs)) = []
    · have hnd := keys_entries_nodup locs
      have hpp := placePass_eq toUpperCase raw (objectEntries (groupLocations locs)) []
        hnd (fun e _ => by simp)
      simp only [hp, List.length_nil, if_true, hpp, List.nil_append]
    · have hlen : ¬ (statementPass toUpperCase term raw
          (objectEntries (groupLocations locs))).length = 0 :=
        fun h => hp (List.length_eq_zero.1 h)
      simp only [hp, hlen, if_false]

theorem searchLocations_perm (toUpperCase : Str → Str) (locs : List Location)
    (term raw : Str) :
    (searchLocations toUpperCase locs term raw).Perm
      (unsortedResults toUpperCase locs term raw) := by
  rw [searchLocations_eq]
  exact sortByKey_perm _ _

theorem entries_ne_nil (locs : List Location) :
    ∀ e ∈ objectEntries (groupLocations locs), e.2 ≠ [] := by
  rintro ⟨k, v⟩ he
  exact ((mem_entries_iff locs k v).1 he).2

theorem statementMatches_iff (toUpperCase : Str → Str) (term raw s : Str) :
    statementMatches toUpperCase term raw s = true ↔
      (term <:+: toUpperCase s ∨ toUpperCase raw <:+: toUpperCase s) := by
  simp only [statementMatches, Bool.or_eq_true, includes_iff]

theorem placeMatches_iff (toUpperCase : Str → Str) (raw : Str) (l : Location) :
    placeMatches toUpperCase raw l = true ↔ toUpperCase raw <:+: toUpperCase l.place := by
  have ho : orElse l.place [] = l.place := by
    unfold orElse
    by_cases h : l.place = [] <;> simp [h]
  simp only [placeMatches, ho, includes_iff]

theorem mem_locationsOfStatement (locs : List Location) (s : Str) (l : Location) :
    l ∈ locationsOfStatement locs s ↔ l ∈ locs ∧ l.statement = s := by
  simp [locationsOfStatement]

theorem mem_statementPass_statements (toUpperCase : Str → Str) (locs : List Location)
    (term raw s : Str) :
    s ∈ (statementPass toUpperCase term raw
          (objectEntries (groupLocations locs))).map (fun r => r.statement) ↔
      InP1 toUpperCase locs term raw s := by
  rw [statementPass_map_statement _ _ _ _ (entries_ne_nil locs)]
  simp only [List.mem_map, List.mem_filter, Prod.exists, exists_and_right, exists_eq_right]
  unfold InP1
  constructor
  · rintro ⟨⟨v, hv⟩, hm⟩
    have hne := ((mem_entries_iff locs s v).1 hv)
    exact ⟨(locationsOfStatement_ne_nil_iff locs s).1 (hne.1 ▸ hne.2),
      (statementMatches_iff _ _ _ _).1 hm⟩
  · rintro ⟨hex, hm⟩
    exact ⟨⟨locationsOfStatement locs s,
      (mem_entries_iff locs s _).2 ⟨rfl, (locationsOfStatement_ne_nil_iff locs s).2 hex⟩⟩,
      (statementMatches_iff _ _ _ _).2 hm⟩

theorem mem_placePass_statements (toUpperCase : Str → Str) (locs : List Location)
    (raw s : Str) :
    s ∈ ((objectEntries (groupLocations locs)).filterMap
          (placeEntry toUpperCase raw)).map (fun r => r.statement) ↔
      InP2 toUpperCase locs raw s := by
  rw [placePass_map_statement]
  simp only [List.mem_map, List.mem_filter, Prod.exists, exists_and_right, exists_eq_right]
  unfold InP2
  constructor
  · rintro ⟨v, hv, hsome⟩
    have hne := ((mem_entries_iff locs s v).1 hv)
    cases hf : v.find? (placeMatches toUpperCase raw) with
    | none => simp [hf] at hsome
    | some l =>
      have hl := List.mem_of_find?_eq_some hf
      rw [hne.1, mem_locationsOfStatement] at hl
      exact ⟨l, hl.1, hl.2, (placeMatches_iff _ _ _).1 (List.find?_some hf)⟩
  · rintro ⟨l, hl, hs, hm⟩
    have hmem : l ∈ locationsOfStatement locs s := (mem_locationsOfStatement locs s l).2 ⟨hl, hs⟩
    refine ⟨locationsOfStatement locs s, (mem_entries_iff locs s _).2 ⟨rfl, ?_⟩, ?_⟩
    · exact List.ne_nil_of_mem hmem
    · cases hf : (locationsOfStatement locs s).find? (placeMatches toUpperCase raw) with
      | some l' => rfl
      | none =>
        rw [List.find?_eq_none] at hf
        exact absurd ((placeMatches_iff _ _ _).2 hm) (hf l hmem)

theorem statementPass_eq_nil_iff (toUpperCase : Str → Str) (locs : List Location)
    (term raw : Str) :
    statementPass toUpperCase term raw (objectEntries (groupLocations locs)) = [] ↔
      ¬ ∃ s, InP1 toUpperCase locs term raw s := by
  constructor
  · rintro h ⟨s, hs⟩
    have := (mem_statementPass_statements toUpperCase locs term raw s).2 hs
    rw [h] at this
    simp at this
  · intro h
    rw [List.eq_nil_iff_forall_not_mem]
    intro r hr
    exact h ⟨r.statement, (mem_statementPass_statements toUpperCase locs term raw _).1
      (List.mem_map_of_mem _ hr)⟩

theorem unsortedResults_nodup (toUpperCase : Str → Str) (locs : List Location)
    (term raw : Str) :
    ((unsortedResults toUpperCase locs term raw).map (fun r => r.statement)).Nodup := by
  unfold unsortedResults
  have hnd := keys_entries_nodup locs
  by_cases hp : statementPass toUpperCase term raw (objectEntries (groupLocations locs)) = []
  · simp only [hp, if_true]
    rw [placePass_map_statement]
    exact List.Nodup.sublist ((List.filter_sublist _).map Prod.fst) hnd
  · simp only [hp, if_false]
    rw [statementPass_map_statement _ _ _ _ (entries_ne_nil locs)]
    exact List.Nodup.sublist ((List.filter_sublist _).map Prod.fst) hnd

/-! ### The claims on `searchLocations` -/

/-- C8: for every list of locations (in particular every non-empty one) and every pair
(normalised term, raw term), the statement ids of the results of `searchLocations` are
exactly P1 when P1 is non-empty and exactly P2 otherwise, where P1 is the set of
statement ids whose upper-cased form contains the normalised term or the upper-cased
raw term as a substring, and P2 is the set of statement ids having at least one location
whose upper-cased place name contains the upper-cased raw term; no statement id appears
in more than one result. -/
theorem searchLocations_statements (toUpperCase : Str → Str) (locs : List Location)
    (term raw : Str) :
    ((∃ s, InP1 toUpperCase locs term raw s) →
      ∀ s, s ∈ (searchLocations toUpperCase locs term raw).map (fun r => r.statement) ↔
        InP1 toUpperCase locs term raw s) ∧
    ((¬ ∃ s, InP1 toUpperCase locs term raw s) →
      ∀ s, s ∈ (searchLocations toUpperCase locs term raw).map (fun r => r.statement) ↔
        InP2 toUpperCase locs raw s) ∧
    ((searchLocations toUpperCase locs term raw).map (fun r => r.statement)).Nodup := by
  have hperm := (searchLocations_perm toUpperCase locs term raw).map (fun r => r.statement)
  refine ⟨?_, ?_, hperm.nodup_iff.2 (unsortedResults_nodup toUpperCase locs term raw)⟩
  · intro hex s
    have hp : ¬ statementPass toUpperCase term raw (objectEntries (groupLocations locs)) = [] :=
      fun h => (statementPass_eq_nil_iff toUpperCase locs term raw).1 h hex
    rw [hperm.mem_iff]
    unfold unsortedResults
    simp only [hp, if_false]
    exact mem_statementPass_statements toUpperCase locs term raw s
  · intro hex s
    have hp := (statementPass_eq_nil_iff toUpperCase locs term raw).2 hex
    rw [hperm.mem_iff]
    unfold unsortedResults
    simp only [hp, if_true]
    exact mem_placePass_statements toUpperCase locs raw s

/-- Runs of `searchLocations_statements`: the query 1 (normalised MAG-001) is answered
by the statement pass, the query leeds by the place-name pass. -/
theorem searchLocations_statements_witness :
    ((∃ s, InP1 asciiUpper [locA, locA2, locB] "MAG-001".toList "1".toList s) ∧
      (stA ∈ (searchLocations asciiUpper [locA, locA2, locB] "MAG-001".toList
            "1".toList).map (fun r => r.statement) ↔
        InP1 asciiUpper [locA, locA2, locB] "MAG-001".toList "1".toList stA)) ∧
    ((¬ ∃ s, InP1 asciiUpper [locA, locA2, locB] "LEEDS".toList "leeds".toList s) ∧
      (stA ∈ (searchLocations asciiUpper [locA, locA2, locB] "LEEDS".toList
            "leeds".toList).map (fun r => r.statement) ↔
        InP2 asciiUpper [locA, locA2, locB] "leeds".toList stA)) := by
  have h1 : ∃ s, InP1 asciiUpper [locA, locA2, locB] "MAG-001".toList "1".toList s :=
    ⟨stA, ⟨locA, by decide, rfl⟩, Or.inl ((includes_iff _ _).1 (by decide))⟩
  have h2 : ¬ ∃ s, InP1 asciiUpper [locA, locA2, locB] "LEEDS".toList "leeds".toList s := by
    rintro ⟨s, ⟨l, hl, rfl⟩, h⟩
    rw [← statementMatches_iff] at h
    simp only [List.mem_cons, List.mem_singleton, List.not_mem_nil, or_false] at hl
    rcases hl with rfl | rfl | rfl <;> revert h <;> decide
  exact ⟨⟨h1, (searchLocations_statements asciiUpper [locA, locA2, locB] "MAG-001".toList
      "1".toList).1 h1 stA⟩,
    ⟨h2, (searchLocations_statements asciiUpper [locA, locA2, locB] "LEEDS".toList
      "leeds".toList).2.1 h2 stA⟩⟩

theorem sortKey_of_prefix (rest : Str) :
    sortKey ("MAG-".toList ++ rest) = prefixKey ("MAG-".toList ++ rest) := by
  have hs : startsWith ("MAG-".toList ++ rest) "MAG-".toList = true := by
    simp [startsWith]
  have hr : removeFirst "MAG-".toList ("MAG-".toList ++ rest) = rest := by
    have hs' : startsWith ('M' :: 'A' :: 'G' :: '-' :: rest) "MAG-".toList = true := hs
    show removeFirst "MAG-".toList ('M' :: 'A' :: 'G' :: '-' :: rest) = rest
    simp only [removeFirst, hs', if_true]
    rfl
  have hd : ("MAG-".toList ++ rest).drop 4 = rest := rfl
  simp only [sortKey, prefixKey, hs, hr, hd, if_true]

/-- C9 (as stated, refuted): for the statement ids 1MAG-0 and MAG-5 the query mag-
returns MAG-5 before 1MAG-0, but the key of the claim (the integer parsed after removing
a MAG- prefix) is 5 for MAG-5 and 1 for 1MAG-0: the results are not in ascending order of
that key. -/
theorem searchLocations_not_sorted_by_prefixKey :
    (searchLocations asciiUpper [sampleLocation "1MAG-0" "Hull", sampleLocation "MAG-5" "York"]
        "MAG-".toList "mag-".toList).map (fun r => r.statement)
      = ["MAG-5".toList, "1MAG-0".toList] ∧
    prefixKey "MAG-5".toList = 5 ∧ prefixKey "1MAG-0".toList = 1 ∧
    ¬ (searchLocations asciiUpper [sampleLocation "1MAG-0" "Hull", sampleLocation "MAG-5" "York"]
        "MAG-".toList "mag-".toList).Pairwise
          (fun a b => prefixKey a.statement ≤ prefixKey b.statement) := by
  decide

theorem toNumber_of_small (n : Int) (h : n.natAbs < 9007199254740992) : toNumber n = n := by
  unfold toNumber roundToDouble
  simp only [h, if_true]
  by_cases hn : n < 0
  · simp only [hn, if_true]
    omega
  · simp only [hn, if_false]
    omega

theorem sortKey_of_small (s : Str) (n : Int)
    (hp : parseInteger (removeFirst "MAG-".toList s) = some n)
    (h : n.natAbs < 9007199254740992) : sortKey s = n := by
  simp only [sortKey, parseInt, hp, Option.map_some', Option.getD_some]
  exact toNumber_of_small n h

/-- C9 (amended): for every input, the list returned by `searchLocations` is in
ascending order of the numeric key of each result's statement id, the key being the
Number that `parseInt` returns for the id with the first occurrence of MAG- removed
(wherever it stands) and 0 when no integer can be parsed; that Number is the parsed
integer itself when it is below 2^53 in magnitude and the double nearest to it
otherwise, so larger integers that round to the same double count as equal and keep the
order of the groups.  For an id that starts with MAG- the key is the one parsed after
removing that prefix.  Results for MAG-010, MAG-002 and MAG-1 come back as MAG-1,
MAG-002, MAG-010; results for MAG-9007199254740993, MAG-9007199254740992 and
MAG-9007199254740994 come back in that order, the first two having the same key. -/
theorem searchLocations_sorted (toUpperCase : Str → Str) (locs : List Location)
    (term raw : Str) :
    (searchLocations toUpperCase locs term raw).Pairwise
      (fun a b => sortKey a.statement ≤ sortKey b.statement) ∧
    (∀ rest : Str, sortKey ("MAG-".toList ++ rest) = prefixKey ("MAG-".toList ++ rest)) ∧
    (∀ (s : Str) (n : Int), parseInteger (removeFirst "MAG-".toList s) = some n →
      n.natAbs < 9007199254740992 → sortKey s = n) ∧
    (searchLocations asciiUpper
        [sampleLocation "MAG-010" "Hull", sampleLocation "MAG-002" "York",
          sampleLocation "MAG-1" "Bath"]
        "MAG-".toList "mag-".toList).map (fun r => r.statement)
      = ["MAG-1".toList, "MAG-002".toList, "MAG-010".toList] ∧
    (searchLocations asciiUpper
        [sampleLocation "MAG-9007199254740993" "Hull",
          sampleLocation "MAG-9007199254740992" "York",
          sampleLocation "MAG-9007199254740994" "Bath"]
        "MAG-".toList "mag-".toList).map (fun r => r.statement)
      = ["MAG-9007199254740993".toList, "MAG-9007199254740992".toList,
          "MAG-9007199254740994".toList] ∧
    sortKey "MAG-9007199254740993".toList = sortKey "MAG-9007199254740992".toList := by
  refine ⟨?_, sortKey_of_prefix, sortKey_of_small, by decide, by decide, by decide⟩
  rw [searchLocations_eq]
  exact sortByKey_sorted _ _

theorem mem_placeEntries (toUpperCase : Str → Str) (locs : List Location) (raw : Str)
    (r : SearchResult)
    (h : r ∈ (objectEntries (groupLocations locs)).filterMap (placeEntry toUpperCase raw)) :
    ∃ l, (locationsOfStatement locs r.statement).find? (placeMatches toUpperCase raw) = some l ∧
      r.locations = [l] ∧
      r.hasMultipleLocations = decide ((locationsOfStatement locs r.statement).length > 1) := by
  rw [List.mem_filterMap] at h
  obtain ⟨⟨k, v⟩, he, hr⟩ := h
  have hv := ((mem_entries_iff locs k v).1 he).1
  unfold placeEntry at hr
  cases hf : v.find? (placeMatches toUpperCase raw) with
  | none => simp [hf] at hr
  | some l =>
    simp only [hf, Option.map_some', Option.some.injEq] at hr
    subst hr
    subst hv
    exact ⟨l, hf, rfl, rfl⟩

/-- C10 (as stated, refuted): MAG-001 has the two locations London and Leeds; the query
leeds matches no statement id, so the place-name pass answers, and its result for
MAG-001 holds only the Leeds record, not the list of all locations of MAG-001 (while
`hasMultipleLocations` is true). -/
theorem searchLocations_place_result_has_one_location :
    (searchLocations asciiUpper [locA, locA2, locB] "LEEDS".toList "leeds".toList).map
        (fun r => (r.statement, r.locations, r.hasMultipleLocations))
      = [(stA, [locA2], true)] ∧
    locationsOfStatement [locA, locA2, locB] stA = [locA, locA2] := by
  decide

/-- C10 (amended): for every result r returned by `searchLocations`,
`r.hasMultipleLocations` is true exactly when the list of all loaded Location records
whose statement is `r.statement` has more than one element; when some statement id
matches the term (statement pass), `r.locations` is that list; otherwise (place-name
pass) `r.locations` holds a single record, the first one of that list whose upper-cased
place name contains the upper-cased raw term. -/
theorem searchLocations_result_locations (toUpperCase : Str → Str) (locs : List Location)
    (term raw : Str) (r : SearchResult)
    (hr : r ∈ searchLocations toUpperCase locs term raw) :
    (r.hasMultipleLocations = true ↔ (locationsOfStatement locs r.statement).length > 1) ∧
    ((∃ s, InP1 toUpperCase locs term raw s) →
      r.locations = locationsOfStatement locs r.statement) ∧
    ((¬ ∃ s, InP1 toUpperCase locs term raw s) →
      ∃ l, (locationsOfStatement locs r.statement).find? (placeMatches toUpperCase raw) = some l ∧
        r.locations = [l]) := by
  have hu := (searchLocations_perm toUpperCase locs term raw).mem_iff.1 hr
  unfold unsortedResults at hu
  by_cases hp : statementPass toUpperCase term raw (objectEntries (groupLocations locs)) = []
  · have hno := (statementPass_eq_nil_iff toUpperCase locs term raw).1 hp
    simp only [hp, if_true] at hu
    obtain ⟨l, hf, hl, hm⟩ := mem_placeEntries toUpperCase locs raw r hu
    refine ⟨?_, fun hex => absurd hex hno, fun _ => ⟨l, hf, hl⟩⟩
    rw [hm]
    simp
  · have hex : ∃ s, InP1 toUpperCase locs term raw s := by
      by_contra hno
      exact hp ((statementPass_eq_nil_iff toUpperCase locs term raw).2 hno)
    simp only [hp, if_false] at hu
    obtain ⟨he, hm⟩ := mem_statementPass toUpperCase term raw _ r hu
    have hv := ((mem_entries_iff locs r.statement r.locations).1 he).1
    refine ⟨?_, fun _ => hv, fun hno => absurd hex hno⟩
    rw [hm, ← hv]
    simp

/-- A run of `searchLocations_result_locations`: the result of the query leeds. -/
theorem searchLocations_result_locations_witness :
    placeResult stA [locA, locA2] locA2 ∈
      searchLocations asciiUpper [locA, locA2, locB] "LEEDS".toList "leeds".toList ∧
    ((placeResult stA [locA, locA2] locA2).hasMultipleLocations = true ↔
      (locationsOfStatement [locA, locA2, locB]
        (placeResult stA [locA, locA2] locA2).statement).length > 1) :=
  ⟨by decide,
    (searchLocations_result_locations asciiUpper [locA, locA2, locB] "LEEDS".toList
      "leeds".toList (placeResult stA [locA, locA2] locA2) (by decide)).1⟩

/-! ## The claims on the index build, the opacities and the styles -/

theorem findLocation_eq_none_iff (locs : List Location) (s : Str) :
    findLocation locs s = none ↔ ¬ ∃ l ∈ locs, l.statement = s := by
  constructor
  · rintro h ⟨l, hl, hs⟩
    obtain ⟨p, hp⟩ := findLocation_isSome locs s (locationsOf_ne_nil locs s ⟨l, hl, hs⟩)
    rw [h] at hp
    simp at hp
  · intro h
    cases hf : findLocation locs s with
    | none => rfl
    | some p =>
      exfalso
      apply h
      unfold findLocation indexed at hf
      have hm := List.mem_of_find?_eq_some hf
      have hs := List.find?_some hf
      obtain ⟨i, l⟩ := p
      have hl := (List.mem_enum hm).2
      refine ⟨l, ?_, by simpa using hs⟩
      rw [hl]
      exact List.getElem_mem _

theorem createConnectionLayer_allLocations (st : State) (c : Connection) :
    (createConnectionLayer st c).allLocations = st.allLocations := by
  unfold createConnectionLayer
  cases findLocation st.allLocations c.from_ <;> cases findLocation st.allLocations c.to_ <;> rfl

theorem createConnectionLayer_isSome (st : State) (c : Connection) (k : Str) :
    (getLayer (createConnectionLayer st c).allConnectionLayers k).isSome = true ↔
      (getLayer st.allConnectionLayers k).isSome = true ∨
        (c.id = k ∧ Resolvable st.allLocations c) := by
  unfold createConnectionLayer Resolvable
  cases hf : findLocation st.allLocations c.from_ with
  | none =>
    have hno := (findLocation_eq_none_iff _ _).1 hf
    simp only [hno, false_and, and_false, or_false]
  | some pf =>
    have hfrom : ∃ l ∈ st.allLocations, l.statement = c.from_ := by
      by_contra hno
      rw [(findLocation_eq_none_iff _ _).2 hno] at hf
      simp at hf
    cases ht : findLocation st.allLocations c.to_ with
    | none =>
      have hno := (findLocation_eq_none_iff _ _).1 ht
      simp only [hno, and_false, or_false]
    | some pt =>
      have hto : ∃ l ∈ st.allLocations, l.statement = c.to_ := by
        by_contra hno
        rw [(findLocation_eq_none_iff _ _).2 hno] at ht
        simp at ht
      simp only [getLayer_setLayer]
      by_cases hk : c.id = k
      · simp [hk, hfrom, hto]
      · simp [hk]

theorem foldl_create_allLocations (cs : List Connection) (st : State) :
    (cs.foldl createConnectionLayer st).allLocations = st.allLocations := by
  induction cs generalizing st with
  | nil => rfl
  | cons c rest ih => simp only [List.foldl_cons, ih, createConnectionLayer_allLocations]

theorem foldl_create_isSome (cs : List Connection) (st : State) (k : Str) :
    (getLayer (cs.foldl createConnectionLayer st).allConnectionLayers k).isSome = true ↔
      (getLayer st.allConnectionLayers k).isSome = true ∨
        ∃ c ∈ cs, c.id = k ∧ Resolvable st.allLocations c := by
  induction cs generalizing st with
  | nil => simp
  | cons c rest ih =>
    simp only [List.foldl_cons]
    rw [ih, createConnectionLayer_isSome, createConnectionLayer_allLocations]
    constructor
    · rintro ((h | ⟨hk, hr⟩) | ⟨d, hd, hdk, hr⟩)
      · exact Or.inl h
      · exact Or.inr ⟨c, List.mem_cons_self _ _, hk, hr⟩
      · exact Or.inr ⟨d, List.mem_cons_of_mem _ hd, hdk, hr⟩
    · rintro (h | ⟨d, hd, hdk, hr⟩)
      · exact Or.inl (Or.inl h)
      · rcases List.mem_cons.1 hd with hdc | hdr
        · subst hdc
          exact Or.inl (Or.inr ⟨hdk, hr⟩)
        · exact Or.inr ⟨d, hdr, hdk, hr⟩

/-- C12: after building the index over a list of connections with pairwise distinct
ids, `allConnectionLayers` has an entry for the id of a connection of the list if and
only if at least one location has statement equal to its `from` and at least one has
statement equal to its `to`; this holds for every connection of the list, so a skipped
connection keeps no later one from getting its layer. -/
theorem loadData_layer_iff_resolvable (locs : List Location) (conns : List Connection)
    (hnd : (conns.map (fun c => c.id)).Nodup) (c : Connection) (hc : c ∈ conns) :
    (getLayer (loadData locs conns).allConnectionLayers c.id).isSome = true ↔
      Resolvable locs c := by
  unfold loadData
  rw [foldl_create_isSome]
  constructor
  · rintro (h | ⟨d, hd, hdk, hr⟩)
    · simp [getLayer] at h
    · have hdc : d = c := List.inj_on_of_nodup_map hnd hd hc hdk
      exact hdc ▸ hr
  · intro hr
    exact Or.inr ⟨c, hc, rfl, hr⟩

/-- A run of `loadData_layer_iff_resolvable`: c3 (MAG-003 has no location) is skipped and
c2, which comes after it, gets its layer. -/
theorem loadData_layer_iff_resolvable_witness :
    ([connAB, connAC, connBA].map (fun c => c.id)).Nodup ∧
    connBA ∈ [connAB, connAC, connBA] ∧
    (getLayer (loadData [locA, locB] [connAB, connAC, connBA]).allConnectionLayers
        connAC.id).isSome = false ∧
    ((getLayer (loadData [locA, locB] [connAB, connAC, connBA]).allConnectionLayers
        connBA.id).isSome = true ↔ Resolvable [locA, locB] connBA) :=
  ⟨by decide, by decide, by decide,
    loadData_layer_iff_resolvable [locA, locB] [connAB, connAC, connBA] (by decide) connBA
      (by decide)⟩

theorem mem_linesOf (ls : List Layer) (p : Polyline) :
    p ∈ linesOf ls ↔ Layer.polyline p ∈ ls := by
  unfold linesOf
  rw [List.mem_filterMap]
  constructor
  · rintro ⟨l, hl, hp⟩
    cases l with
    | polyline q =>
      simp only [Option.some.injEq] at hp
      exact hp ▸ hl
    | marker m => simp at hp
  · intro h
    exact ⟨Layer.polyline p, h, rfl⟩

theorem linesOf_map_setOpacity (ls : List Layer) (a b : Nat) (p : Polyline)
    (h : p ∈ linesOf (ls.map (setOpacity a b))) : p.opacity = a := by
  rw [mem_linesOf, List.mem_map] at h
  obtain ⟨l, _, hl⟩ := h
  cases l with
  | polyline q =>
    simp only [setOpacity, Layer.polyline.injEq] at hl
    rw [← hl]
  | marker m => simp [setOpacity] at hl

theorem setOpacity_setOpacity (a b : Nat) (l : Layer) :
    setOpacity a b (setOpacity a b l) = setOpacity a b l := by
  cases l with
  | polyline q => rfl
  | marker m =>
    cases hm : m.icon <;> simp [setOpacity, hm]

theorem clearGroup_idem (g : LayerGroup) : clearGroup (clearGroup g) = clearGroup g := by
  simp only [clearGroup, Bool.false_eq_true, if_false, List.map_map]
  congr 1
  apply List.map_congr_left
  intro l _
  exact setOpacity_setOpacity 0 0 l

theorem clearAllConnections_idem (st : State) :
    clearAllConnections (clearAllConnections st) = clearAllConnections st := by
  have h1 := clearAllConnections_layers (clearAllConnections st)
  have h2 := clearAllConnections_layers st
  have hl : (clearAllConnections (clearAllConnections st)).allConnectionLayers
      = (clearAllConnections st).allConnectionLayers := by
    rw [h1, h2, List.map_map]
    apply List.map_congr_left
    intro e _
    simp only [Function.comp, clearGroup_idem]
  have hrest : clearAllConnections (clearAllConnections st) =
      { clearAllConnections st with
        allConnectionLayers :=
          (clearAllConnections (clearAllConnections st)).allConnectionLayers } := rfl
  rw [hrest, hl]

/-- C13: from every state, `clearAllConnections` ends with no connection layer attached
to the map, every line of every layer at opacity 0 and
`currentlyHighlightedConnections` empty; it is idempotent: running it twice gives the
same state as running it once. -/
theorem clearAllConnections_resets (st : State) :
    (∀ id, isAttached (clearAllConnections st) id = false) ∧
    (∀ e ∈ (clearAllConnections st).allConnectionLayers,
      e.2.onMap = false ∧ ∀ p ∈ linesOf e.2.layers, p.opacity = 0) ∧
    (clearAllConnections st).currentlyHighlightedConnections = [] ∧
    clearAllConnections (clearAllConnections st) = clearAllConnections st := by
  refine ⟨fun id => isAttached_clear st id, ?_, rfl, clearAllConnections_idem st⟩
  intro e he
  rw [clearAllConnections_layers, List.mem_map] at he
  obtain ⟨e0, _, rfl⟩ := he
  exact ⟨rfl, fun p hp => linesOf_map_setOpacity _ 0 0 p hp⟩

theorem visReachable_nodup (st0 st : State) (h0 : st0.currentlyHighlightedConnections = [])
    (hr : VisReachable st0 st) : st.currentlyHighlightedConnections.Nodup := by
  induction hr with
  | start => simp [h0]
  | clear _ _ => simp [clearAllConnections]
  | single id _ ih => exact highlightSingle_nodup _ id ih
  | all s _ _ => exact highlightAll_nodup _ s

theorem linesOf_map_setOpacity_eq (ls : List Layer) (a b : Nat) :
    linesOf (ls.map (setOpacity a b)) = (linesOf ls).map (fun p => { p with opacity := a }) := by
  induction ls with
  | nil => rfl
  | cons l rest ih =>
    unfold linesOf at ih ⊢
    cases l with
    | polyline q => simp only [List.map_cons, setOpacity, List.filterMap_cons, ih]
    | marker m => simp only [List.map_cons, setOpacity, List.filterMap_cons, ih]

theorem linesOf_addToMap (g : LayerGroup) : linesOf (addToMap g).layers = linesOf g.layers := by
  unfold addToMap linesOf
  induction g.layers with
  | nil => rfl
  | cons l rest ih =>
    cases l with
    | polyline q => simp only [List.map_cons, List.filterMap_cons, ih]
    | marker m => simp only [List.map_cons, List.filterMap_cons, ih]

theorem linesOf_showGroup (g : LayerGroup) :
    linesOf (showGroup g).layers = (linesOf g.layers).map (fun p => { p with opacity := 7 }) := by
  unfold showGroup
  simp only [linesOf_map_setOpacity_eq]
  by_cases h : g.onMap = true
  · simp only [h, if_true]
  · simp only [h, if_false, linesOf_addToMap, Bool.false_eq_true]

theorem length_showGroup (g : LayerGroup) : (showGroup g).layers.length = g.layers.length := by
  unfold showGroup
  by_cases h : g.onMap = true
  · simp only [h, if_true, List.length_map]
  · simp only [h, if_false, List.length_map, addToMap, Bool.false_eq_true]

theorem layers_showGroup (g : LayerGroup) :
    (showGroup g).layers = g.layers.map (fun l =>
      match l with
      | Layer.polyline p => Layer.polyline { p with opacity := 7 }
      | Layer.marker m =>
        Layer.marker { m with icon := if g.onMap then m.icon.map (fun _ => 10) else some 10 }) := by
  unfold showGroup
  by_cases h : g.onMap = true
  · simp only [h, if_true]
    apply List.map_congr_left
    intro l _
    cases l <;> rfl
  · simp only [h, if_false, addToMap, List.map_map, Bool.false_eq_true]
    apply List.map_congr_left
    intro l _
    cases l <;> rfl

/-- C14: in every state reachable from an empty highlighted list by
`clearAllConnections`, `highlightSingleConnection` and
`highlightAllConnectionsForStatement`, `currentlyHighlightedConnections` contains no id
twice; and `highlightSingleConnection(id)`, for an id that has the layer g, leaves
under that id the same layer, attached: it has as many members as g, its lines are the
lines of g, each with its opacity set to 0.7 and nothing else changed, and its labels
are the labels of g, the icon they have on the map at opacity 1; the layers of the other ids are as
they were; id is a member of the list, which still contains no id
twice. -/
theorem highlightSingle_attaches_without_duplicate (st0 st : State)
    (h0 : st0.currentlyHighlightedConnections = []) (hr : VisReachable st0 st) :
    st.currentlyHighlightedConnections.Nodup ∧
    ∀ id g, getLayer st.allConnectionLayers id = some g →
      isAttached (highlightSingleConnection st id) id = true ∧
      (∃ g', getLayer (highlightSingleConnection st id).allConnectionLayers id = some g' ∧
        g'.onMap = true ∧
        g'.layers.length = g.layers.length ∧
        linesOf g'.layers = (linesOf g.layers).map (fun p => { p with opacity := 7 }) ∧
        g'.layers = g.layers.map (fun l =>
          match l with
          | Layer.polyline p => Layer.polyline { p with opacity := 7 }
          | Layer.marker m =>
            Layer.marker
              { m with icon := if g.onMap then m.icon.map (fun _ => 10) else some 10 })) ∧
      (∀ k, k ≠ id →
        getLayer (highlightSingleConnection st id).allConnectionLayers k
          = getLayer st.allConnectionLayers k) ∧
      id ∈ (highlightSingleConnection st id).currentlyHighlightedConnections ∧
      (highlightSingleConnection st id).currentlyHighlightedConnections.Nodup := by
  have hnd := visReachable_nodup st0 st h0 hr
  refine ⟨hnd, fun id g hg => ⟨?_, ?_, ?_, ?_, highlightSingle_nodup st id hnd⟩⟩
  · rw [highlightSingle_isAttached]
    simp [hg]
  · refine ⟨showGroup g, ?_, rfl, length_showGroup g, linesOf_showGroup g, layers_showGroup g⟩
    rw [highlightSingle_getLayer]
    simp [hg]
  · intro k hk
    rw [highlightSingle_getLayer]
    have : ¬ id = k := fun e => hk e.symm
    simp [this]
  · rw [highlightSingle_mem]
    exact Or.inr ⟨rfl, by simp [hg]⟩

/-- A run of `highlightSingle_attaches_without_duplicate`: c1 is highlighted twice
after the data are loaded; it is listed once, and its layer, built with one line at
opacity 0 and one label, is attached with that line at 0.7 (7 tenths). -/
theorem highlightSingle_attaches_without_duplicate_witness :
    (loadData [locA, locB] [connAB, connBA]).currentlyHighlightedConnections = [] ∧
    VisReachable (loadData [locA, locB] [connAB, connBA])
      (highlightSingleConnection (loadData [locA, locB] [connAB, connBA]) connAB.id) ∧
    (getLayer (loadData [locA, locB] [connAB, connBA]).allConnectionLayers connAB.id).map
        (fun g => ((linesOf g.layers).map (fun p => p.opacity), g.layers.length, g.onMap))
      = some ([0], 2, false) ∧
    (getLayer (highlightSingleConnection
        (highlightSingleConnection (loadData [locA, locB] [connAB, connBA]) connAB.id)
        connAB.id).allConnectionLayers connAB.id).map
        (fun g => ((linesOf g.layers).map (fun p => p.opacity), g.layers.length, g.onMap))
      = some ([7], 2, true) ∧
    (highlightSingleConnection
        (highlightSingleConnection (loadData [locA, locB] [connAB, connBA]) connAB.id)
        connAB.id).currentlyHighlightedConnections = [connAB.id] ∧
    (highlightSingleConnection (loadData [locA, locB] [connAB, connBA])
        connAB.id).currentlyHighlightedConnections.Nodup ∧
    connAB.id ∈ (highlightSingleConnection
        (highlightSingleConnection (loadData [locA, locB] [connAB, connBA]) connAB.id)
        connAB.id).currentlyHighlightedConnections :=
  ⟨by decide, VisReachable.single _ VisReachable.start, by decide, by decide, by decide,
    (highlightSingle_attaches_without_duplicate (loadData [locA, locB] [connAB, connBA]) _
      (by decide) (VisReachable.single _ VisReachable.start)).1,
    ((highlightSingle_attaches_without_duplicate (loadData [locA, locB] [connAB, connBA]) _
      (by decide) (VisReachable.single _ VisReachable.start)).2 connAB.id
        (showGroup { layers := buildLayers connAB (locationsOf [locA, locB] stA)
                        (locationsOf [locA, locB] stB), onMap := false })
        (by decide)).2.2.2.1⟩

theorem mem_linesOf_buildLayers (c : Connection) (froms tos : List (Nat × Location))
    (p : Polyline) (h : p ∈ linesOf (buildLayers c froms tos)) :
    p.weight = lineWeight c ∧ p.color = lineColor c ∧ p.opacity = 0 ∧
      p.connectionData = c := by
  rw [mem_linesOf] at h
  unfold buildLayers at h
  simp only [List.mem_flatMap] at h
  obtain ⟨f, _, t, _, hp⟩ := h
  unfold pairLayers at hp
  by_cases hft : f.1 = t.1
  · simp [hft] at hp
  · by_cases hl : c.label = []
    · simp only [hft, hl, if_false, if_true, List.mem_singleton, Layer.polyline.injEq] at hp
      subst hp
      exact ⟨rfl, rfl, rfl, rfl⟩
    · simp only [hft, hl, if_false, List.mem_cons, Layer.polyline.injEq, List.mem_singleton,
        List.not_mem_nil, or_false] at hp
      rcases hp with hp | hp
      · subst hp
        exact ⟨rfl, rfl, rfl, rfl⟩
      · simp at hp

theorem createConnectionLayer_layer (st : State) (c : Connection) (g : LayerGroup)
    (hr : Resolvable st.allLocations c)
    (hg : getLayer (createConnectionLayer st c).allConnectionLayers c.id = some g) :
    g.layers = buildLayers c (locationsOf st.allLocations c.from_)
      (locationsOf st.allLocations c.to_) := by
  obtain ⟨pf, hpf⟩ := findLocation_isSome _ _ (locationsOf_ne_nil _ _ hr.1)
  obtain ⟨pt, hpt⟩ := findLocation_isSome _ _ (locationsOf_ne_nil _ _ hr.2)
  simp only [createConnectionLayer, hpf, hpt, getLayer_setLayer, if_true,
    Option.some.injEq] at hg
  rw [← hg]

/-- C15: for every connection whose two ends resolve, every line
`createConnectionLayer` builds for it has weight 4 when `strength` is high, 3 when it
is medium, and 2 for every other strength value, a missing one included. -/
theorem createConnectionLayer_line_weight (st : State) (c : Connection) (g : LayerGroup)
    (p : Polyline) (hr : Resolvable st.allLocations c)
    (hg : getLayer (createConnectionLayer st c).allConnectionLayers c.id = some g)
    (hp : p ∈ linesOf g.layers) :
    (c.strength = "high".toList → p.weight = 4) ∧
    (c.strength = "medium".toList → p.weight = 3) ∧
    (c.strength ≠ "high".toList → c.strength ≠ "medium".toList → p.weight = 2) := by
  rw [createConnectionLayer_layer st c g hr hg] at hp
  have hw := (mem_linesOf_buildLayers c _ _ p hp).1
  rw [hw]
  unfold lineWeight
  refine ⟨fun h => ?_, fun h => ?_, fun h1 h2 => ?_⟩
  · simp [h]
  · have hne : ¬ c.strength = "high".toList := by
      rw [h]
      decide
    simp [h, hne]
  · rw [if_neg h1, if_neg h2]

/-- A run of `createConnectionLayer_line_weight`: the line of c1, whose strength is
high, between the locations 0 and 1. -/
theorem createConnectionLayer_line_weight_witness :
    Resolvable (loadData [locA, locB] []).allLocations connAB ∧
    connAB.strength = "high".toList ∧
    ({ color := ColorValue.text "#8B0000".toList, weight := 4, opacity := 0, dashed := true,
       connectionData := connAB, fromLocation := 0, toLocation := 1 } : Polyline).weight = 4 :=
  ⟨⟨⟨locA, by decide, rfl⟩, ⟨locB, by decide, rfl⟩⟩, rfl,
    (createConnectionLayer_line_weight (loadData [locA, locB] []) connAB
      { layers := buildLayers connAB (locationsOf [locA, locB] stA) (locationsOf [locA, locB] stB)
        onMap := false }
      { color := ColorValue.text "#8B0000".toList, weight := 4, opacity := 0, dashed := true,
        connectionData := connAB, fromLocation := 0, toLocation := 1 }
      ⟨⟨locA, by decide, rfl⟩, ⟨locB, by decide, rfl⟩⟩ (by decide) (by decide)).1 rfl⟩

theorem ownColor_of_not_mem (tbl : List (Str × Str)) (t : Str)
    (h : ∀ e ∈ tbl, e.1 ≠ t) : ownColor tbl t = none := by
  induction tbl with
  | nil => rfl
  | cons e rest ih =>
    obtain ⟨k, v⟩ := e
    have hk : ¬ k = t := h (k, v) (List.mem_cons_self _ _)
    simp only [ownColor, hk, if_false]
    exact ih (fun x hx => h x (List.mem_cons_of_mem _ hx))

theorem lineColor_of_unlisted (c : Connection) (ht : ∀ e ∈ connectionColors, e.1 ≠ c.type)
    (hproto : c.type ∉ objectPrototypeNames) : lineColor c = ownOrDefaultColor c := by
  unfold lineColor colorOfType
  rw [ownColor_of_not_mem connectionColors c.type ht]
  simp only [hproto, if_false]

/-- The colour expression for a type that names an inherited member: the table lookup
yields that member, which is truthy, so neither the connection's own colour nor the
default is reached. -/
theorem lineColor_of_inherited (c : Connection) (ht : ∀ e ∈ connectionColors, e.1 ≠ c.type)
    (hproto : c.type ∈ objectPrototypeNames) :
    lineColor c = ColorValue.inherited c.type := by
  unfold lineColor colorOfType
  rw [ownColor_of_not_mem connectionColors c.type ht]
  simp only [hproto, if_true, ColorValue.truthy]

/-- C16 (as stated, refuted): the connection c5 has the type rumour, which is neither in
the colour table nor the name of an inherited member, and the colour #123456 of its
own; the line built for it has the colour #123456, not the default #666666. -/
theorem own_color_beats_default :
    (∀ e ∈ connectionColors, e.1 ≠ connOwnColor.type) ∧
    connOwnColor.type ∉ objectPrototypeNames ∧
    (getLayer (createConnectionLayer (loadData [locA, locB] []) connOwnColor).allConnectionLayers
        connOwnColor.id).map (fun g => (linesOf g.layers).map (fun p => p.color))
      = some [ColorValue.text "#123456".toList] := by
  decide

/-- C16 (amended): for every connection whose two ends resolve and whose type is neither
one of the entries of the fixed type to colour table nor the name of a member inherited
from `Object.prototype`, `createConnectionLayer` gives every line it builds the colour
of the connection's own `color` field when that field is present (non-empty), and the
default fallback colour #666666 otherwise. -/
theorem createConnectionLayer_line_color (st : State) (c : Connection) (g : LayerGroup)
    (p : Polyline) (hr : Resolvable st.allLocations c)
    (hg : getLayer (createConnectionLayer st c).allConnectionLayers c.id = some g)
    (hp : p ∈ linesOf g.layers)
    (ht : ∀ e ∈ connectionColors, e.1 ≠ c.type)
    (hproto : c.type ∉ objectPrototypeNames) :
    (c.color = [] → p.color = ColorValue.text "#666666".toList) ∧
    (c.color ≠ [] → p.color = ColorValue.text c.color) := by
  rw [createConnectionLayer_layer st c g hr hg] at hp
  have hc := (mem_linesOf_buildLayers c _ _ p hp).2.1
  rw [hc, lineColor_of_unlisted c ht hproto]
  unfold ownOrDefaultColor
  refine ⟨fun h => ?_, fun h => ?_⟩
  · rw [if_pos h]
    rfl
  · rw [if_neg h]

/-- A run of `createConnectionLayer_line_color`: the line of c5. -/
theorem createConnectionLayer_line_color_witness :
    Resolvable (loadData [locA, locB] []).allLocations connOwnColor ∧
    (∀ e ∈ connectionColors, e.1 ≠ connOwnColor.type) ∧
    connOwnColor.type ∉ objectPrototypeNames ∧
    connOwnColor.color ≠ [] ∧
    ({ color := ColorValue.text "#123456".toList, weight := 2, opacity := 0, dashed := true,
       connectionData := connOwnColor, fromLocation := 0, toLocation := 1 } : Polyline).color
      = ColorValue.text connOwnColor.color :=
  ⟨⟨⟨locA, by decide, rfl⟩, ⟨locB, by decide, rfl⟩⟩, by decide, by decide, by decide,
    (createConnectionLayer_line_color (loadData [locA, locB] []) connOwnColor
      { layers := buildLayers connOwnColor (locationsOf [locA, locB] stA)
          (locationsOf [locA, locB] stB)
        onMap := false }
      { color := ColorValue.text "#123456".toList, weight := 2, opacity := 0, dashed := true,
        connectionData := connOwnColor, fromLocation := 0, toLocation := 1 }
      ⟨⟨locA, by decide, rfl⟩, ⟨locB, by decide, rfl⟩⟩ (by decide) (by decide)
      (by decide) (by decide)).2 (by decide)⟩

/-! ## The claims on the two toggles, unknown ids and numeric queries -/

theorem highlightAll_of_clear (st : State) (s : Str) :
    highlightAllConnectionsForStatement (clearAllConnections st) s
      = highlightAllConnectionsForStatement st s := by
  unfold highlightAllConnectionsForStatement
  rw [clearAllConnections_idem]

theorem setSelected_of_selected (st : State) (x : Option Str)
    (h : st.currentlySelectedStatement = x) :
    { st with currentlySelectedStatement := x } = st := by
  cases st
  simp only at h
  subst h
  rfl

theorem markerClick_eq_toggle (st : State) (s : Str) :
    markerClick st s = toggleConnectionsForStatement st s := by
  unfold toggleConnectionsForStatement
  by_cases hsel : st.currentlySelectedStatement = some s
  · by_cases hp : st.currentlyHighlightedConnections.length > 0
    · rw [markerClick_selected_shown st s hsel hp]
      simp only [hsel, hp, and_self, if_true]
    · rw [markerClick_selected_hidden st s hsel hp]
      have h1 : highlightAllConnectionsForStatement
            { clearAllConnections st with currentlySelectedStatement := some s } s
          = { highlightAllConnectionsForStatement st s with
              currentlySelectedStatement := some s } := by
        rw [highlightAll_setSelected, highlightAll_of_clear]
      have h2 : ({ highlightAllConnectionsForStatement st s with
              currentlySelectedStatement := some s } : State)
          = highlightAllConnectionsForStatement st s :=
        setSelected_of_selected _ _ (by rw [highlightAll_selected, hsel])
      simp only [hsel, hp, and_false, if_false]
      exact (h1.trans h2).symm
  · rw [markerClick_other st s hsel]
    simp only [hsel, false_and, if_false]

/-- C18: the marker click handler and `toggleConnectionsForStatement` are the same
transition on the selection state: for every starting state and every statement S,
both leave the same `currentlySelectedStatement`, the same
`currentlyHighlightedConnections`, the same layers and so the same attached layers.
The call of `updateConnectionButton` that ends `toggleConnectionsForStatement` comes
after these changes and only concerns the panel. -/
theorem markerClick_toggle_same_transition (st : State) (S : Str) :
    (markerClick st S).currentlySelectedStatement
      = (toggleConnectionsForStatement st S).currentlySelectedStatement ∧
    (markerClick st S).currentlyHighlightedConnections
      = (toggleConnectionsForStatement st S).currentlyHighlightedConnections ∧
    (markerClick st S).allConnectionLayers
      = (toggleConnectionsForStatement st S).allConnectionLayers ∧
    ∀ id, isAttached (markerClick st S) id = isAttached (toggleConnectionsForStatement st S) id := by
  rw [markerClick_eq_toggle]
  exact ⟨rfl, rfl, rfl, fun _ => rfl⟩

/-- C19: for every connection id that has no entry in `allConnectionLayers` (an unknown
id, or a connection skipped at build time), `highlightSingleConnection(id)` changes
nothing: the state after the call is the state before it, so the highlighted list, the
attached layers, every opacity and the selected statement are as before. -/
theorem highlightSingle_without_layer (st : State) (id : Str)
    (h : getLayer st.allConnectionLayers id = none) :
    highlightSingleConnection st id = st ∧
    (highlightSingleConnection st id).currentlyHighlightedConnections
      = st.currentlyHighlightedConnections ∧
    (highlightSingleConnection st id).allConnectionLayers = st.allConnectionLayers ∧
    (highlightSingleConnection st id).currentlySelectedStatement
      = st.currentlySelectedStatement := by
  rw [highlightSingle_of_none st id h]
  exact ⟨rfl, rfl, rfl, rfl⟩

/-- A run of `highlightSingle_without_layer`: c3 was skipped at build time, and
highlighting it while c1 is shown changes nothing. -/
theorem highlightSingle_without_layer_witness :
    getLayer (markerClick (loadData [locA, locB] [connAB, connAC]) stA).allConnectionLayers
        connAC.id = none ∧
    highlightSingleConnection (markerClick (loadData [locA, locB] [connAB, connAC]) stA)
        connAC.id
      = markerClick (loadData [locA, locB] [connAB, connAC]) stA :=
  ⟨by decide,
    (highlightSingle_without_layer (markerClick (loadData [locA, locB] [connAB, connAC]) stA)
      connAC.id (by decide)).1⟩

theorem normalizeTerm_of_digits (toUpperCase : Str → Str) (q : Str) (hq : IsDigits q) :
    normalizeTerm toUpperCase q = "MAG-".toList ++ padStart3 q := by
  have h := (matchDigits_iff q).2 hq
  simp only [normalizeTerm, h, if_true]

theorem infix_canonical (q : Str) : q <:+: "MAG-".toList ++ padStart3 q := by
  refine ⟨"MAG-".toList ++ List.replicate (3 - q.length) '0', [], ?_⟩
  simp [padStart3]

theorem asciiUpper_of_digits (q : Str) (hq : IsDigits q) : asciiUpper q = q := by
  unfold asciiUpper
  have h : ∀ c ∈ q, (if 97 ≤ c.toNat ∧ c.toNat ≤ 122 then Char.ofNat (c.toNat - 32) else c)
      = id c := by
    intro c hc
    have hd := hq.2 c hc
    simp only [isDigit, decide_eq_true_eq] at hd
    have hn : ¬ (97 ≤ c.toNat ∧ c.toNat ≤ 122) := by omega
    simp only [hn, if_false, id]
  rw [List.map_congr_left h, List.map_id]

/-- C20: for every query q made only of decimal digits (which upper-casing leaves as it
is), the normalised term adds nothing to the statement pass: a statement id is matched
if and only if its upper-cased form contains q itself as a substring; in particular an
id whose upper-cased form contains MAG- followed by the padded q contains q.  The query
7 matches MAG-017, which does not contain MAG-007. -/
theorem numeric_query_matches_by_raw_term (toUpperCase : Str → Str) (q s : Str)
    (hq : IsDigits q) (hup : toUpperCase q = q) :
    (statementMatches toUpperCase (normalizeTerm toUpperCase q) q s = true ↔
      q <:+: toUpperCase s) ∧
    (normalizeTerm toUpperCase q <:+: toUpperCase s → q <:+: toUpperCase s) ∧
    statementMatches asciiUpper (normalizeTerm asciiUpper "7".toList) "7".toList
      "MAG-017".toList = true ∧
    includes (asciiUpper "MAG-017".toList) (normalizeTerm asciiUpper "7".toList) = false := by
  have hn := normalizeTerm_of_digits toUpperCase q hq
  have himp : normalizeTerm toUpperCase q <:+: toUpperCase s → q <:+: toUpperCase s := by
    intro h
    rw [hn] at h
    exact List.IsInfix.trans (infix_canonical q) h
  refine ⟨?_, himp, by decide, by decide⟩
  rw [statementMatches_iff, hup]
  constructor
  · rintro (h | h)
    · exact himp h
    · exact h
  · intro h
    exact Or.inr h

/-- A run of `numeric_query_matches_by_raw_term`: the query 7 against the id MAG-017. -/
theorem numeric_query_matches_by_raw_term_witness :
    IsDigits "7".toList ∧ asciiUpper "7".toList = "7".toList ∧
    (statementMatches asciiUpper (normalizeTerm asciiUpper "7".toList) "7".toList
        "MAG-017".toList = true ↔
      "7".toList <:+: asciiUpper "MAG-017".toList) :=
  ⟨⟨by decide, by decide⟩, asciiUpper_of_digits _ ⟨by decide, by decide⟩,
    (numeric_query_matches_by_raw_term asciiUpper "7".toList "MAG-017".toList
      ⟨by decide, by decide⟩ (asciiUpper_of_digits _ ⟨by decide, by decide⟩)).1⟩

/-! ## The claims on the search box and the location panel -/

theorem trim_of_whiteSpace (value : Str) (h : ∀ c ∈ value, isWhiteSpace c = true) :
    trim value = [] := by
  have hd : value.dropWhile isWhiteSpace = [] := List.dropWhile_eq_nil_iff.2 h
  simp [trim, hd]

/-- C11 (as stated, refuted): while no location is loaded, the input of two blanks
makes `handleSearch` put the loading message into the results area and show it. -/
theorem blank_input_before_load_shows_loading :
    (∀ c ∈ "  ".toList, isWhiteSpace c = true) ∧
    (handleSearch asciiUpper searchBeforeLoad "  ".toList).resultsContainer
      = some { innerHTML := ResultsContent.loading, shown := true } := by
  decide

/-- C11 (amended): for every input that is empty or consists only of white space,
`handleSearch` never calls `searchLocations`; when at least one location is loaded it
leaves the results area hidden, with its content as it was; when no location is loaded
it puts the loading message into the results area and shows it, as it does for every
input. -/
theorem handleSearch_blank_input (toUpperCase : Str → Str) (s : StatementSearch)
    (value : Str) (hws : ∀ c ∈ value, isWhiteSpace c = true) :
    (handleSearch toUpperCase s value).searchCalls = s.searchCalls ∧
    (s.allLocations ≠ [] →
      (handleSearch toUpperCase s value).resultsContainer
        = s.resultsContainer.map (fun c => { c with shown := false })) ∧
    (s.allLocations = [] →
      (handleSearch toUpperCase s value).resultsContainer
        = s.resultsContainer.map
            (fun _ => { innerHTML := ResultsContent.loading, shown := true })) := by
  have ht := trim_of_whiteSpace value hws
  by_cases hl : s.allLocations = []
  · have hlen : s.allLocations.length = 0 := by simp [hl]
    cases hc : s.resultsContainer with
    | none =>
      simp [handleSearch, hlen, hc, hl]
    | some c =>
      simp [handleSearch, hlen, hc, hl, showResults, ResultsContent.isBlank]
  · have hlen : ¬ s.allLocations.length = 0 := fun h => hl (List.length_eq_zero.1 h)
    simp [handleSearch, hlen, ht, hl, hideResults]

/-- A run of `handleSearch_blank_input`: an input of two blanks over loaded locations
hides the results of the earlier query and searches nothing. -/
theorem handleSearch_blank_input_witness :
    (∀ c ∈ "  ".toList, isWhiteSpace c = true) ∧
    searchAfterLoad.allLocations ≠ [] ∧
    (handleSearch asciiUpper searchAfterLoad "  ".toList).searchCalls
      = searchAfterLoad.searchCalls ∧
    (handleSearch asciiUpper searchAfterLoad "  ".toList).resultsContainer
      = some { innerHTML := ResultsContent.noResults, shown := false } :=
  ⟨by decide, by decide,
    (handleSearch_blank_input asciiUpper searchAfterLoad "  ".toList (by decide)).1,
    by decide⟩

/-- C17: for every properties record (and every state of the page), the location
detail markup produced by the `showLocation` of map.js contains an archivist-note block
if and only if `properties.archivist_note` is present (non-empty) and differs from the
literal `Statement recorded for posterity.`; the block then holds that note. -/
theorem showLocation_archivistNote_iff (st : State) (properties : Properties) :
    (hasArchivistNote (showLocation st properties).text = true ↔
      properties.archivist_note ≠ [] ∧
        properties.archivist_note ≠ "Statement recorded for posterity.".toList) ∧
    (∀ note, PanelBlock.archivistNote note ∈ (showLocation st properties).text →
      note = properties.archivist_note) := by
  have hd : defaultArchivistNote = "Statement recorded for posterity.".toList := rfl
  rw [← hd]
  constructor
  · unfold showLocation hasArchivistNote
    by_cases h1 : properties.date = [] <;>
    by_cases h2 : properties.statement_giver = [] <;>
    by_cases h3 : properties.supplemental = [] <;>
    by_cases h4 : properties.archivist_note ≠ [] ∧
        properties.archivist_note ≠ defaultArchivistNote <;>
    by_cases h5 : (relevantConnections st.allConnections
        (orElse properties.statement "STATEMENT-UNKNOWN".toList)).length > 0 <;>
    simp [h1, h2, h3, h4, h5]
  · intro note hn
    unfold showLocation at hn
    simp only [List.mem_append, List.mem_singleton] at hn
    rcases hn with ((((hn | hn) | hn) | hn) | hn) | hn
    · simp at hn
    · by_cases h1 : properties.date = [] <;> simp [h1] at hn
    · by_cases h2 : properties.statement_giver = [] <;> simp [h2] at hn
    · by_cases h3 : properties.supplemental = [] <;> simp [h3] at hn
    · by_cases h4 : properties.archivist_note ≠ [] ∧
          properties.archivist_note ≠ defaultArchivistNote
      · rw [if_pos h4] at hn
        simpa using hn
      · rw [if_neg h4] at hn
        simp at hn
    · by_cases h5 : (relevantConnections st.allConnections
          (orElse properties.statement "STATEMENT-UNKNOWN".toList)).length > 0 <;>
        simp [h5] at hn

end MagMap
